import Mathlib

set_option maxHeartbeats 1000000

/-!
Shallow embedding of the transcript-slicing core of
`helixerprep/core/handlers.py`: the interval classifier `FeatureVsCoords`,
the piece manager `TranscriptTrimmer.mk_new_piece`, the border splitter
`TranscriptTrimmer.set_status_downstream_border`, and the walk
`TranscriptTrimmer.modify4new_slice`, together with the batch queue
(`core_queue`) that they drive.

Conventions of the embedding:
* Python ints are `Int`; database row identifiers are `Nat`.
* ORM rows become structures; in-place attribute mutation becomes replacing
  the row (matched by `id`) in an explicit feature store carried in
  `TrimState`.
* The transcript feature walk `transition_5p_to_3p` is an external
  collaborator of this core (it comes from the geenuff package); its
  materialized output `list(self.transition_5p_to_3p())` is therefore an
  input: a list of (aligned feature group, piece) pairs.
* Python exceptions (`NoFeaturesInSliceError`, `AssertionError`, the
  `IndexError` of `aligned_features[0]` on an empty group) become
  `Except TrimError`.
-/

/-- A geenuff `Coordinate` row: a contiguous region of the sequence `seqid`. -/
structure Coordinates where
  id : Nat
  seqid : String
  start : Int
  «end» : Int
  deriving DecidableEq, Repr

/-- A geenuff `Feature` row, with the attributes used by the slicing core.
`coordinate` is the Coordinates row the feature currently belongs to;
`transcribed_pieces` holds the ids of the TranscribedPiece rows the feature
is attached to. -/
structure Feature where
  id : Nat
  start : Int
  «end» : Int
  is_plus_strand : Bool
  coordinate : Coordinates
  start_is_biological_start : Bool
  end_is_biological_end : Bool
  given_name : Option String
  transcribed_pieces : List Nat
  deriving DecidableEq, Repr

/-- A geenuff `TranscribedPiece` row: an ordered partition unit of a
transcript's features, ordered by `position`. -/
structure TranscribedPiece where
  id : Nat
  position : Int
  deriving DecidableEq, Repr

/-- Strand-adjusted inclusive-exclusive start used throughout the source:
`feature.start` on the plus strand, `feature.end + 1` on the minus strand
(the `+1` of `FeatureVsCoords.__init__`). -/
def py_start (f : Feature) (is_plus_strand : Bool) : Int :=
  if is_plus_strand then f.start else f.«end» + 1

/-- Strand-adjusted exclusive end: `feature.end` on the plus strand,
`feature.start + 1` on the minus strand. -/
def py_end (f : Feature) (is_plus_strand : Bool) : Int :=
  if is_plus_strand then f.«end» else f.start + 1

/-- The `FeatureVsCoords` helper object: a feature, a candidate slice, the
strand sense of the walk, and the precalculated strand-adjusted interval. -/
structure FeatureVsCoords where
  feature : Feature
  slice_coordinates : Coordinates
  is_plus_strand : Bool
  sign : Int
  feature_py_start : Int
  feature_py_end : Int
  deriving DecidableEq, Repr

/-- Constructor of `FeatureVsCoords` (its `__init__`): precalculates the
sign and the strand-adjusted `[feature_py_start, feature_py_end)` interval. -/
def FeatureVsCoords.make (feature : Feature) (slice_coordinates : Coordinates)
    (is_plus_strand : Bool) : FeatureVsCoords :=
  { feature := feature
    slice_coordinates := slice_coordinates
    is_plus_strand := is_plus_strand
    sign := if is_plus_strand then 1 else -1
    feature_py_start := py_start feature is_plus_strand
    feature_py_end := py_end feature is_plus_strand }

/-- `FeatureVsCoords.is_detached`: different seqid, or strand mismatch. -/
def FeatureVsCoords.is_detached (p : FeatureVsCoords) : Bool :=
  decide (p.slice_coordinates.seqid ≠ p.feature.coordinate.seqid) ||
    decide (p.is_plus_strand ≠ p.feature.is_plus_strand)

/-- `FeatureVsCoords._is_lower`: the adjusted interval ends at or before the
slice start. -/
def FeatureVsCoords.is_lower (p : FeatureVsCoords) : Bool :=
  decide (p.slice_coordinates.start - p.feature_py_end ≥ 0)

/-- `FeatureVsCoords._is_higher`: the adjusted interval starts at or after
the slice end. -/
def FeatureVsCoords.is_higher (p : FeatureVsCoords) : Bool :=
  decide (p.feature_py_start - p.slice_coordinates.«end» ≥ 0)

/-- `FeatureVsCoords.is_upstream`. -/
def FeatureVsCoords.is_upstream (p : FeatureVsCoords) : Bool :=
  if p.is_plus_strand then p.is_lower else p.is_higher

/-- `FeatureVsCoords.is_downstream`. -/
def FeatureVsCoords.is_downstream (p : FeatureVsCoords) : Bool :=
  if p.is_plus_strand then p.is_higher else p.is_lower

/-- `FeatureVsCoords.is_contained`: adjusted `[start, end)` fully inside the
slice's `[start, end)`. -/
def FeatureVsCoords.is_contained (p : FeatureVsCoords) : Bool :=
  decide (p.slice_coordinates.start ≤ p.feature_py_start ∧
      p.feature_py_start < p.slice_coordinates.«end») &&
    decide (p.slice_coordinates.start < p.feature_py_end ∧
      p.feature_py_end ≤ p.slice_coordinates.«end»)

/-- `FeatureVsCoords._overlaps_lower`. -/
def FeatureVsCoords.overlaps_lower (p : FeatureVsCoords) : Bool :=
  decide (p.feature_py_start < p.slice_coordinates.start ∧
    p.slice_coordinates.start < p.feature_py_end)

/-- `FeatureVsCoords._overlaps_higher`. -/
def FeatureVsCoords.overlaps_higher (p : FeatureVsCoords) : Bool :=
  decide (p.feature_py_start < p.slice_coordinates.«end» ∧
    p.slice_coordinates.«end» < p.feature_py_end)

/-- `FeatureVsCoords.overlaps_upstream`. -/
def FeatureVsCoords.overlaps_upstream (p : FeatureVsCoords) : Bool :=
  if p.is_plus_strand then p.overlaps_lower else p.overlaps_higher

/-- `FeatureVsCoords.overlaps_downstream`. -/
def FeatureVsCoords.overlaps_downstream (p : FeatureVsCoords) : Bool :=
  if p.is_plus_strand then p.overlaps_higher else p.overlaps_lower

/-- The six relationships `FeatureVsCoords` distinguishes, plus the final
`else` of `modify4new_slice`'s dispatch, which `raise AssertionError`s. -/
inductive Classification where
  | detached
  | upstream
  | overlaps_upstream
  | contained
  | overlaps_downstream
  | downstream
  | unreachable
  deriving DecidableEq, Repr

/-- The if/elif dispatch of `TranscriptTrimmer.modify4new_slice` over the
`FeatureVsCoords` predicates, in source order, applied to the first feature
`f0` of an aligned feature group. -/
def classify (f : Feature) (new_coords : Coordinates)
    (is_plus_strand : Bool) : Classification :=
  let p := FeatureVsCoords.make f new_coords is_plus_strand
  if p.is_detached then .detached
  else if p.is_upstream then .upstream
  else if p.overlaps_upstream then .overlaps_upstream
  else if p.is_contained then .contained
  else if p.overlaps_downstream then .overlaps_downstream
  else if p.is_downstream then .downstream
  else .unreachable

/-- Exceptions the trimming walk can raise: `NoFeaturesInSliceError`, the
`AssertionError`s (unreachable dispatch branch, missing old piece in the
border swap), and the `IndexError` of `aligned_features[0]` on an empty
group. -/
inductive TrimError where
  | noFeaturesInSlice
  | assertionError
  | indexError
  deriving DecidableEq, Repr

/-- A batched coordinate reassignment record, as enqueued on
`core_queue.coord_swaps`. -/
structure CoordSwap where
  feat_id : Nat
  coordinate_id_new : Nat
  deriving DecidableEq, Repr

/-- A batched piece reassignment record, as enqueued on
`core_queue.piece_swaps`. -/
structure PieceSwap where
  piece_id_old : Nat
  piece_id_new : Nat
  feat_id : Nat
  deriving DecidableEq, Repr

/-- The mutable state threaded through one `modify4new_slice` call: the
feature store (session view of the transcript's features), the features
created by border splits, the transcript's pieces, the pending and the
already-flushed batch queue records, the memoized `_downstream_piece`, the
loop-local `piece_at_border` and `seen_one_overlap`, and a fresh-id source
standing for the database's id assignment. -/
structure TrimState where
  features : List Feature
  created : List Feature
  pieces : List TranscribedPiece
  coord_swaps : List CoordSwap
  piece_swaps : List PieceSwap
  applied_coord_swaps : List CoordSwap
  applied_piece_swaps : List PieceSwap
  downstream_piece : Option TranscribedPiece
  piece_at_border : Option Nat
  seen_one_overlap : Bool
  next_id : Nat
  deriving DecidableEq, Repr

/-- `TranscriptTrimmer.swap_list_item`: replace the first occurrence of
`item_to_remove` by `replacement_item` (the source copies the list, finds
the index with `list.index`, and assigns at that index). -/
def swap_list_item : List Nat → Nat → Nat → List Nat
  | [], _, _ => []
  | x :: xs, replacement_item, item_to_remove =>
    if x = item_to_remove then replacement_item :: xs
    else x :: swap_list_item xs replacement_item item_to_remove

/-- `TranscriptTrimmer.set_status_downstream_border`, as a pure function
from the template feature to (mutated template, new downstream feature).
The cut point `down_at` is `new_coords.end` on the plus strand and
`new_coords.start - 1` on the minus strand.  The downstream feature is
built by `new_handled_data` as a copy of the template with `id=None`
(a fresh id, modelled by `fresh_id`), `start=down_at`, `given_name=None`,
`coordinate=old_coords`, `start_is_biological_start=False` and the old
piece swapped for the new piece; the template is then truncated to
`end=down_at`, marked `end_is_biological_end=False` and moved to
`new_coords`. -/
def set_status_downstream_border (new_coords old_coords : Coordinates)
    (is_plus_strand : Bool) (template_feature : Feature)
    (new_piece_id old_piece_id : Nat) (fresh_id : Nat) : Feature × Feature :=
  let down_at : Int :=
    if is_plus_strand then new_coords.«end» else new_coords.start - 1
  let downstream_pieces :=
    swap_list_item template_feature.transcribed_pieces new_piece_id old_piece_id
  let downstream : Feature :=
    { template_feature with
        id := fresh_id
        start := down_at
        given_name := none
        coordinate := old_coords
        start_is_biological_start := false
        transcribed_pieces := downstream_pieces }
  let trimmed : Feature :=
    { template_feature with
        «end» := down_at
        end_is_biological_end := false
        coordinate := new_coords }
  (trimmed, downstream)

/-- `TranscriptTrimmer.mk_new_piece`: increment the position of every piece
of the transcript whose position is greater than `piece.position`, then
create the new piece at `piece.position + 1` (with a database-assigned
fresh id, modelled by `fresh_id`). -/
def mk_new_piece (pieces : List TranscribedPiece) (piece : TranscribedPiece)
    (fresh_id : Nat) : List TranscribedPiece × TranscribedPiece :=
  let old_pieces := pieces.map fun old_piece =>
    if old_piece.position > piece.position then
      { old_piece with position := old_piece.position + 1 }
    else old_piece
  let new_piece : TranscribedPiece := { id := fresh_id, position := piece.position + 1 }
  (old_pieces ++ [new_piece], new_piece)

/-- The truncated template of a border split: what
`set_status_downstream_border` commits back for the original feature —
`end` at the cut point, `end_is_biological_end = False`, `coordinate`
moved to the slice (the first component of the pair; it does not depend on
the old coordinates, the piece ids or the fresh id). -/
def trim_to (new_coords : Coordinates) (is_plus_strand : Bool) (f : Feature) : Feature :=
  (set_status_downstream_border new_coords new_coords is_plus_strand f 0 0 0).1

/-- `TranscriptTrimmer.downstream_piece`: lazily create (and memoize in
`_downstream_piece`) the one new piece after the border. -/
def downstream_piece (st : TrimState) (piece : TranscribedPiece) :
    TrimState × TranscribedPiece :=
  match st.downstream_piece with
  | some p => (st, p)
  | none =>
    let pr := mk_new_piece st.pieces piece st.next_id
    ({ st with
        pieces := pr.1
        downstream_piece := some pr.2
        next_id := st.next_id + 1 }, pr.2)

/-- Modelled from the spec: application of one pending
`core_queue.coord_swaps` record list to a single feature row (the
`CoreQueue` class itself is not under src/; §4.5 of the spec specifies it
as accumulating such records and flushing them as one consistent update).
`resolve` stands for the database's lookup of a Coordinates row by id. -/
def apply_coord_swaps (resolve : Nat → Coordinates) (css : List CoordSwap)
    (f : Feature) : Feature :=
  css.foldl (fun a cs =>
    if a.id = cs.feat_id then { a with coordinate := resolve cs.coordinate_id_new }
    else a) f

/-- Modelled from the spec: application of the pending
`core_queue.piece_swaps` records to a single feature row, replacing the old
piece by the new piece in the feature's piece list. -/
def apply_piece_swaps (pss : List PieceSwap) (f : Feature) : Feature :=
  pss.foldl (fun a ps =>
    if a.id = ps.feat_id then
      { a with transcribed_pieces :=
          swap_list_item a.transcribed_pieces ps.piece_id_new ps.piece_id_old }
    else a) f

/-- Modelled from the spec: `core_queue.execute_so_far` — flush all
accumulated coordinate-swap and piece-swap records as a single consistent
update of the feature store and clear the queue; the flushed records are
kept in `applied_*` for observability. -/
def execute_so_far (resolve : Nat → Coordinates) (st : TrimState) : TrimState :=
  { st with
      features := st.features.map fun f =>
        apply_piece_swaps st.piece_swaps (apply_coord_swaps resolve st.coord_swaps f)
      coord_swaps := []
      piece_swaps := []
      applied_coord_swaps := st.applied_coord_swaps ++ st.coord_swaps
      applied_piece_swaps := st.applied_piece_swaps ++ st.piece_swaps }

/-- Replace the row with matching id in the feature store (in-place ORM
attribute mutation followed by a commit). -/
def updateFeature (fs : List Feature) (g : Feature) : List Feature :=
  fs.map fun f => if f.id = g.id then g else f

/-- Look a feature row up by id in the feature store. -/
def findFeature (fs : List Feature) (i : Nat) : Option Feature :=
  fs.find? fun f => f.id = i

/-- The `for feature in aligned_features` loop of the `overlaps_downstream`
branch: for each feature of the group, assert that the old piece is among
the feature's pieces (`AssertionError` otherwise), then apply
`set_status_downstream_border`: commit the truncated template into the
store and record the created downstream feature. -/
def border_loop (new_coords old_coords : Coordinates) (is_plus_strand : Bool)
    (new_piece_id old_piece_id : Nat) :
    List Feature → TrimState → Except TrimError TrimState
  | [], st => .ok st
  | feature :: rest, st =>
    if old_piece_id ∈ feature.transcribed_pieces then
      let pr := set_status_downstream_border new_coords old_coords
        is_plus_strand feature new_piece_id old_piece_id st.next_id
      border_loop new_coords old_coords is_plus_strand new_piece_id old_piece_id rest
        { st with
            features := updateFeature st.features pr.1
            created := st.created ++ [pr.2]
            next_id := st.next_id + 1 }
    else .error .assertionError

/-- The body of `modify4new_slice`'s loop for one `(aligned_features,
piece)` pair: classify the first feature of the group and dispatch.
`detached`, `upstream` and `overlaps_upstream` are no-ops; `contained`
enqueues a coordinate swap per feature; `overlaps_downstream` records the
border piece, lazily creates the downstream piece, flushes the queue and
splits every feature of the group; `downstream` enqueues piece swaps when
the group's piece is the border piece; the final `else` raises
`AssertionError`. -/
def processGroup (resolve : Nat → Coordinates) (new_coords : Coordinates)
    (is_plus_strand : Bool) (st : TrimState)
    (grp : List Feature × TranscribedPiece) : Except TrimError TrimState :=
  match grp.1 with
  | [] => .error .indexError
  | f0 :: _ =>
    let old_coordinate := f0.coordinate
    match classify f0 new_coords is_plus_strand with
    | .detached => .ok st
    | .upstream => .ok st
    | .overlaps_upstream => .ok st
    | .contained =>
      .ok { st with
              seen_one_overlap := true
              coord_swaps := st.coord_swaps ++ grp.1.map fun f =>
                { feat_id := f.id, coordinate_id_new := new_coords.id } }
    | .overlaps_downstream =>
      let st1 := { st with
                     seen_one_overlap := true
                     piece_at_border := some grp.2.id }
      let pr := downstream_piece st1 grp.2
      let st2 := execute_so_far resolve pr.1
      border_loop new_coords old_coordinate is_plus_strand pr.2.id grp.2.id grp.1 st2
    | .downstream =>
      match st.piece_at_border with
      | none => .ok st
      | some pb =>
        if grp.2.id = pb then
          let pr := downstream_piece st grp.2
          .ok { pr.1 with
                  piece_swaps := pr.1.piece_swaps ++ grp.1.map fun f =>
                    { piece_id_old := pb, piece_id_new := pr.2.id, feat_id := f.id } }
        else .ok st
    | .unreachable => .error .assertionError

/-- The `for aligned_features, piece in transition_gen` loop, with Python
exception propagation. -/
def run_transitions (resolve : Nat → Coordinates) (new_coords : Coordinates)
    (is_plus_strand : Bool) :
    List (List Feature × TranscribedPiece) → TrimState → Except TrimError TrimState
  | [], st => .ok st
  | g :: gs, st =>
    match processGroup resolve new_coords is_plus_strand st g with
    | .error e => .error e
    | .ok st2 => run_transitions resolve new_coords is_plus_strand gs st2

/-- `TranscriptTrimmer.modify4new_slice`: walk the materialized
`transition_gen`, then raise `NoFeaturesInSliceError` if no group was seen
to overlap, and finally reset the memoized `_downstream_piece`. -/
def modify4new_slice (resolve : Nat → Coordinates) (new_coords : Coordinates)
    (is_plus_strand : Bool)
    (transition_gen : List (List Feature × TranscribedPiece))
    (st0 : TrimState) : Except TrimError TrimState :=
  match run_transitions resolve new_coords is_plus_strand transition_gen st0 with
  | .error e => .error e
  | .ok st =>
    if !st.seen_one_overlap then .error .noFeaturesInSlice
    else .ok { st with downstream_piece := none }

/-- The state at the start of a `modify4new_slice` call: empty queue, no
memoized downstream piece, loop-locals reset. -/
def initState (features : List Feature) (pieces : List TranscribedPiece)
    (next_id : Nat) : TrimState :=
  { features := features
    created := []
    pieces := pieces
    coord_swaps := []
    piece_swaps := []
    applied_coord_swaps := []
    applied_piece_swaps := []
    downstream_piece := none
    piece_at_border := none
    seen_one_overlap := false
    next_id := next_id }

/-- Whether processing this group sets `seen_one_overlap`: its first feature
dispatches to the `is_contained` or the `overlaps_downstream` branch. -/
def group_sets_seen (new_coords : Coordinates) (is_plus_strand : Bool)
    (grp : List Feature × TranscribedPiece) : Bool :=
  match grp.1 with
  | [] => false
  | f0 :: _ =>
    decide (classify f0 new_coords is_plus_strand = .contained) ||
      decide (classify f0 new_coords is_plus_strand = .overlaps_downstream)

/-- The coordinate-swap records a group contributes to the batch queue: one
per feature when the group dispatches to the `is_contained` branch. -/
def group_coord_swaps (new_coords : Coordinates) (is_plus_strand : Bool)
    (grp : List Feature × TranscribedPiece) : List CoordSwap :=
  match grp.1 with
  | [] => []
  | f0 :: _ =>
    if classify f0 new_coords is_plus_strand = .contained then
      grp.1.map fun f => { feat_id := f.id, coordinate_id_new := new_coords.id }
    else []

/-- Invariant for a feature `f` of a `contained` group before its group is
processed: its row is untouched in the store and no queue record mentions
it. -/
def C3Pre (f : Feature) (st : TrimState) : Prop :=
  findFeature st.features f.id = some f ∧
  (∀ cs ∈ st.coord_swaps, cs.feat_id ≠ f.id) ∧
  (∀ ps ∈ st.piece_swaps, ps.feat_id ≠ f.id)

/-- Invariant for a feature `f` of a `contained` group after its group is
processed: every pending coordinate swap naming it points at the new
coordinates, no pending piece swap names it, and its row is either still
untouched with its swap pending, or already moved to the new coordinates. -/
def C3Post (new_coords : Coordinates) (f : Feature) (st : TrimState) : Prop :=
  (∀ cs ∈ st.coord_swaps, cs.feat_id = f.id → cs.coordinate_id_new = new_coords.id) ∧
  (∀ ps ∈ st.piece_swaps, ps.feat_id ≠ f.id) ∧
  ((findFeature st.features f.id = some f ∧
      ({ feat_id := f.id, coordinate_id_new := new_coords.id } : CoordSwap) ∈ st.coord_swaps) ∨
    findFeature st.features f.id = some { f with coordinate := new_coords })

/-- Concrete rows used by the witness and counterexample theorems below. -/
def coordFull : Coordinates := { id := 0, seqid := "chr1", start := 0, «end» := 1000 }

def slice400 : Coordinates := { id := 1, seqid := "chr1", start := 0, «end» := 400 }

def sliceB : Coordinates := { id := 2, seqid := "chr1", start := 10, «end» := 20 }

def resolveW : Nat → Coordinates :=
  fun i => if i = 1 then slice400 else if i = 2 then sliceB else coordFull

def pieceW : TranscribedPiece := { id := 7, position := 0 }

def pieceX : TranscribedPiece := { id := 8, position := 1 }

def featA : Feature :=
  { id := 10, start := 100, «end» := 200, is_plus_strand := true,
    coordinate := coordFull, start_is_biological_start := true,
    end_is_biological_end := true, given_name := none, transcribed_pieces := [7] }

def featB : Feature := { featA with id := 11, start := 200, «end» := 500 }

def featC : Feature := { featA with id := 12, start := 500, «end» := 800 }

def featD : Feature := { featA with id := 13, start := 200, «end» := 390 }

def featOvUp : Feature := { featA with id := 20, start := 5, «end» := 15 }

def featSpan : Feature := { featA with id := 45, start := 5, «end» := 30 }

def featZero : Feature := { featA with id := 30, start := 15, «end» := 15 }

/-! Helper lemmas about the classifier. -/

theorem classify_ne_unreachable (f : Feature) (nc : Coordinates) (ip : Bool) :
    classify f nc ip ≠ .unreachable := by
  unfold classify
  cases ip <;>
    simp only [FeatureVsCoords.make, FeatureVsCoords.is_detached,
      FeatureVsCoords.is_upstream, FeatureVsCoords.is_lower, FeatureVsCoords.is_higher,
      FeatureVsCoords.overlaps_upstream, FeatureVsCoords.overlaps_lower,
      FeatureVsCoords.overlaps_higher, FeatureVsCoords.is_contained,
      FeatureVsCoords.overlaps_downstream, FeatureVsCoords.is_downstream,
      py_start, py_end, if_true, if_false] <;>
    split_ifs <;> simp_all <;> omega

theorem classify_contained_of_span (f : Feature) (nc : Coordinates) (ip : Bool)
    (hseq : f.coordinate.seqid = nc.seqid) (hstr : f.is_plus_strand = ip)
    (h1 : nc.start ≤ py_start f ip) (h2 : py_end f ip ≤ nc.«end»)
    (h3 : py_start f ip < py_end f ip) :
    classify f nc ip = .contained := by
  unfold classify
  subst hstr
  cases hip : f.is_plus_strand <;>
    simp_all only [FeatureVsCoords.make, FeatureVsCoords.is_detached,
      FeatureVsCoords.is_upstream, FeatureVsCoords.is_lower, FeatureVsCoords.is_higher,
      FeatureVsCoords.overlaps_upstream, FeatureVsCoords.overlaps_lower,
      FeatureVsCoords.overlaps_higher, FeatureVsCoords.is_contained,
      FeatureVsCoords.overlaps_downstream, FeatureVsCoords.is_downstream,
      py_start, py_end, if_true, if_false] <;>
    split_ifs <;> simp_all <;> omega

/-! Helper lemmas about the feature store and the queue application. -/

theorem findFeature_map (u : Feature → Feature) (hu : ∀ x, (u x).id = x.id)
    (fs : List Feature) (i : Nat) :
    findFeature (fs.map u) i = Option.map u (findFeature fs i) := by
  induction fs with
  | nil => rfl
  | cons a t ih =>
    simp only [findFeature, List.map_cons, List.find?_cons] at *
    by_cases h : a.id = i
    · rw [hu a] at *
      simp [h]
    · rw [show (decide ((u a).id = i)) = false by simp [hu a, h],
        show (decide (a.id = i)) = false by simp [h]]
      exact ih

theorem apply_coord_swaps_id (resolve : Nat → Coordinates) (css : List CoordSwap)
    (f : Feature) : (apply_coord_swaps resolve css f).id = f.id := by
  induction css generalizing f with
  | nil => rfl
  | cons c t ih =>
    simp only [apply_coord_swaps, List.foldl_cons] at *
    by_cases h : f.id = c.feat_id <;> simp [h, ih]

theorem apply_piece_swaps_id (pss : List PieceSwap) (f : Feature) :
    (apply_piece_swaps pss f).id = f.id := by
  induction pss generalizing f with
  | nil => rfl
  | cons c t ih =>
    simp only [apply_piece_swaps, List.foldl_cons] at *
    by_cases h : f.id = c.feat_id <;> simp [h, ih]

theorem apply_coord_swaps_start_end (resolve : Nat → Coordinates)
    (css : List CoordSwap) (f : Feature) :
    (apply_coord_swaps resolve css f).start = f.start ∧
      (apply_coord_swaps resolve css f).«end» = f.«end» := by
  induction css generalizing f with
  | nil => exact ⟨rfl, rfl⟩
  | cons c t ih =>
    simp only [apply_coord_swaps, List.foldl_cons] at *
    by_cases h : f.id = c.feat_id <;> simp [h, ih]

theorem apply_piece_swaps_start_end (pss : List PieceSwap) (f : Feature) :
    (apply_piece_swaps pss f).start = f.start ∧
      (apply_piece_swaps pss f).«end» = f.«end» := by
  induction pss generalizing f with
  | nil => exact ⟨rfl, rfl⟩
  | cons c t ih =>
    simp only [apply_piece_swaps, List.foldl_cons] at *
    by_cases h : f.id = c.feat_id <;> simp [h, ih]

theorem apply_coord_swaps_not_mem (resolve : Nat → Coordinates)
    (css : List CoordSwap) (f : Feature)
    (h : ∀ cs ∈ css, cs.feat_id ≠ f.id) :
    apply_coord_swaps resolve css f = f := by
  induction css with
  | nil => rfl
  | cons c t ih =>
    simp only [apply_coord_swaps, List.foldl_cons]
    rw [if_neg (fun hc => (h c (List.mem_cons_self c t)) hc.symm)]
    exact ih fun cs hcs => h cs (List.mem_cons_of_mem c hcs)

theorem apply_piece_swaps_not_mem (pss : List PieceSwap) (f : Feature)
    (h : ∀ ps ∈ pss, ps.feat_id ≠ f.id) :
    apply_piece_swaps pss f = f := by
  induction pss with
  | nil => rfl
  | cons c t ih =>
    simp only [apply_piece_swaps, List.foldl_cons]
    rw [if_neg (fun hc => (h c (List.mem_cons_self c t)) hc.symm)]
    exact ih fun ps hps => h ps (List.mem_cons_of_mem c hps)

theorem coordinate_update_idem (f : Feature) (nc : Coordinates) :
    ({ ({ f with coordinate := nc }) with coordinate := nc } : Feature)
      = { f with coordinate := nc } := rfl

theorem findFeature_updateFeature_ne (fs : List Feature) (g : Feature) (i : Nat)
    (h : g.id ≠ i) :
    findFeature (updateFeature fs g) i = findFeature fs i := by
  induction fs with
  | nil => rfl
  | cons a t ih =>
    simp only [updateFeature, findFeature, List.map_cons, List.find?_cons] at *
    by_cases ha : a.id = g.id
    · rw [show (decide ((if a.id = g.id then g else a).id = i)) = false by
          simp [ha, h], show (decide (a.id = i)) = false by simp [ha, h]]
      exact ih
    · rw [show ((if a.id = g.id then g else a) : Feature) = a by simp [ha]]
      by_cases hai : a.id = i
      · simp [hai]
      · simp only [show (decide (a.id = i)) = false by simp [hai]]
        exact ih

theorem findFeature_updateFeature_eq (fs : List Feature) (g : Feature) (x : Feature)
    (hfind : findFeature fs g.id = some x) :
    findFeature (updateFeature fs g) g.id = some g := by
  induction fs with
  | nil => cases hfind
  | cons a t ih =>
    simp only [updateFeature, findFeature, List.map_cons, List.find?_cons] at *
    by_cases ha : a.id = g.id
    · simp [ha]
    · rw [show ((if a.id = g.id then g else a) : Feature) = a by simp [ha]] at *
      simp only [show (decide (a.id = g.id)) = false by simp [ha]] at *
      exact ih hfind

theorem apply_coord_swaps_cons (resolve : Nat → Coordinates) (c : CoordSwap)
    (t : List CoordSwap) (f : Feature) :
    apply_coord_swaps resolve (c :: t) f
      = apply_coord_swaps resolve t
          (if f.id = c.feat_id then { f with coordinate := resolve c.coordinate_id_new }
           else f) := rfl

theorem apply_coord_swaps_canonical (resolve : Nat → Coordinates)
    (nc : Coordinates) (css : List CoordSwap) (f : Feature)
    (hres : resolve nc.id = nc)
    (hcanon : ∀ cs ∈ css, cs.feat_id = f.id → cs.coordinate_id_new = nc.id) :
    apply_coord_swaps resolve css f = f ∨
      apply_coord_swaps resolve css f = { f with coordinate := nc } := by
  induction css generalizing f with
  | nil => exact Or.inl rfl
  | cons c t ih =>
    rw [apply_coord_swaps_cons]
    by_cases h : f.id = c.feat_id
    · rw [if_pos h, hcanon c (List.mem_cons_self c t) h.symm, hres]
      rcases ih { f with coordinate := nc }
          (fun cs hcs hid => hcanon cs (List.mem_cons_of_mem c hcs) hid) with h2 | h2
      · exact Or.inr h2
      · exact Or.inr (h2.trans (by rfl))
    · rw [if_neg h]
      exact ih f fun cs hcs hid => hcanon cs (List.mem_cons_of_mem c hcs) hid

theorem apply_coord_swaps_mem (resolve : Nat → Coordinates)
    (nc : Coordinates) (css : List CoordSwap) (f : Feature)
    (hres : resolve nc.id = nc)
    (hcanon : ∀ cs ∈ css, cs.feat_id = f.id → cs.coordinate_id_new = nc.id)
    (hmem : ({ feat_id := f.id, coordinate_id_new := nc.id } : CoordSwap) ∈ css) :
    apply_coord_swaps resolve css f = { f with coordinate := nc } := by
  induction css generalizing f with
  | nil => cases hmem
  | cons c t ih =>
    rw [apply_coord_swaps_cons]
    by_cases h : f.id = c.feat_id
    · rw [if_pos h, hcanon c (List.mem_cons_self c t) h.symm, hres]
      rcases apply_coord_swaps_canonical resolve nc t { f with coordinate := nc } hres
          (fun cs hcs hid => hcanon cs (List.mem_cons_of_mem c hcs) hid) with h2 | h2
      · exact h2
      · exact h2.trans (by rfl)
    · rw [if_neg h]
      rcases List.mem_cons.1 hmem with hc | hc
      · exact absurd (congrArg CoordSwap.feat_id hc) h
      · exact ih f (fun cs hcs hid => hcanon cs (List.mem_cons_of_mem c hcs) hid) hc

/-! Helper lemmas about the border-splitting loop. -/

theorem border_loop_frame (nc oc : Coordinates) (ip : Bool) (npid opid : Nat)
    (fs : List Feature) : ∀ (st st' : TrimState),
    border_loop nc oc ip npid opid fs st = .ok st' →
    st'.coord_swaps = st.coord_swaps ∧ st'.piece_swaps = st.piece_swaps ∧
      st'.applied_coord_swaps = st.applied_coord_swaps ∧
      st'.applied_piece_swaps = st.applied_piece_swaps ∧
      st'.pieces = st.pieces ∧ st'.downstream_piece = st.downstream_piece ∧
      st'.piece_at_border = st.piece_at_border ∧
      st'.seen_one_overlap = st.seen_one_overlap := by
  induction fs with
  | nil =>
    intro st st' h
    simp only [border_loop] at h
    cases h
    exact ⟨rfl, rfl, rfl, rfl, rfl, rfl, rfl, rfl⟩
  | cons f rest ih =>
    intro st st' h
    simp only [border_loop] at h
    split at h
    · have h2 := ih _ _ h
      exact h2
    · cases h

theorem border_loop_ne_noFeatures (nc oc : Coordinates) (ip : Bool)
    (npid opid : Nat) (fs : List Feature) : ∀ (st : TrimState),
    border_loop nc oc ip npid opid fs st ≠ .error .noFeaturesInSlice := by
  induction fs with
  | nil => intro st h; cases h
  | cons f rest ih =>
    intro st h
    simp only [border_loop] at h
    split at h
    · exact ih _ h
    · cases h

theorem border_loop_find_ne (nc oc : Coordinates) (ip : Bool) (npid opid : Nat)
    (fs : List Feature) : ∀ (st st' : TrimState) (i : Nat),
    border_loop nc oc ip npid opid fs st = .ok st' →
    (∀ f ∈ fs, f.id ≠ i) →
    findFeature st'.features i = findFeature st.features i := by
  induction fs with
  | nil =>
    intro st st' i h _
    simp only [border_loop] at h
    cases h
    rfl
  | cons f rest ih =>
    intro st st' i h hne
    simp only [border_loop] at h
    split at h
    · rw [ih _ _ i h fun x hx => hne x (List.mem_cons_of_mem f hx)]
      exact findFeature_updateFeature_ne _ _ _ (hne f (List.mem_cons_self f rest))
    · cases h

theorem border_loop_ok (nc oc : Coordinates) (ip : Bool) (npid opid : Nat)
    (fs : List Feature) : ∀ (st : TrimState),
    (∀ f ∈ fs, opid ∈ f.transcribed_pieces) →
    ∃ st' ds, border_loop nc oc ip npid opid fs st = .ok st' ∧
      st'.created = st.created ++ ds ∧
      List.Forall₂ (fun f d => ∃ k,
        d = (set_status_downstream_border nc oc ip f npid opid k).2) fs ds ∧
      st'.features = fs.foldl (fun acc f =>
        updateFeature acc (set_status_downstream_border nc oc ip f npid opid 0).1)
        st.features := by
  induction fs with
  | nil =>
    intro st _
    exact ⟨st, [], rfl, by simp, List.Forall₂.nil, rfl⟩
  | cons f rest ih =>
    intro st h
    obtain ⟨st', ds, h1, h2, h3, h4⟩ := ih
      { st with
          features := updateFeature st.features
            (set_status_downstream_border nc oc ip f npid opid st.next_id).1
          created := st.created ++
            [(set_status_downstream_border nc oc ip f npid opid st.next_id).2]
          next_id := st.next_id + 1 }
      (fun g hg => h g (List.mem_cons_of_mem f hg))
    refine ⟨st',
      (set_status_downstream_border nc oc ip f npid opid st.next_id).2 :: ds,
      ?_, ?_, ?_, ?_⟩
    · rw [show border_loop nc oc ip npid opid (f :: rest) st
          = border_loop nc oc ip npid opid rest
              { st with
                  features := updateFeature st.features
                    (set_status_downstream_border nc oc ip f npid opid st.next_id).1
                  created := st.created ++
                    [(set_status_downstream_border nc oc ip f npid opid st.next_id).2]
                  next_id := st.next_id + 1 } by
        simp only [border_loop, if_pos (h f (List.mem_cons_self f rest))]]
      exact h1
    · rw [h2]
      simp
    · exact List.Forall₂.cons ⟨st.next_id, rfl⟩ h3
    · rw [h4]
      simp only [List.foldl_cons]
      rfl

/-! Helper lemmas: the dispatch branches of `processGroup`. -/

theorem processGroup_noop (resolve : Nat → Coordinates) (nc : Coordinates)
    (ip : Bool) (st : TrimState) (f0 : Feature) (rest : List Feature)
    (piece : TranscribedPiece)
    (h : classify f0 nc ip = .detached ∨ classify f0 nc ip = .upstream ∨
      classify f0 nc ip = .overlaps_upstream) :
    processGroup resolve nc ip st (f0 :: rest, piece) = .ok st := by
  rcases h with h | h | h <;> simp [processGroup, h]

theorem processGroup_contained (resolve : Nat → Coordinates) (nc : Coordinates)
    (ip : Bool) (st : TrimState) (f0 : Feature) (rest : List Feature)
    (piece : TranscribedPiece)
    (h : classify f0 nc ip = .contained) :
    processGroup resolve nc ip st (f0 :: rest, piece)
      = .ok { st with
                seen_one_overlap := true
                coord_swaps := st.coord_swaps ++ (f0 :: rest).map fun f =>
                  { feat_id := f.id, coordinate_id_new := nc.id } } := by
  simp [processGroup, h]

theorem processGroup_ovdown (resolve : Nat → Coordinates) (nc : Coordinates)
    (ip : Bool) (st : TrimState) (f0 : Feature) (rest : List Feature)
    (piece : TranscribedPiece)
    (h : classify f0 nc ip = .overlaps_downstream) :
    processGroup resolve nc ip st (f0 :: rest, piece)
      = border_loop nc f0.coordinate ip
          (downstream_piece
            { st with seen_one_overlap := true, piece_at_border := some piece.id }
            piece).2.id
          piece.id (f0 :: rest)
          (execute_so_far resolve
            (downstream_piece
              { st with seen_one_overlap := true, piece_at_border := some piece.id }
              piece).1) := by
  simp [processGroup, h]

theorem processGroup_downstream_none (resolve : Nat → Coordinates)
    (nc : Coordinates) (ip : Bool) (st : TrimState) (f0 : Feature)
    (rest : List Feature) (piece : TranscribedPiece)
    (h : classify f0 nc ip = .downstream)
    (hpb : st.piece_at_border = none) :
    processGroup resolve nc ip st (f0 :: rest, piece) = .ok st := by
  simp [processGroup, h, hpb]

theorem processGroup_downstream_other (resolve : Nat → Coordinates)
    (nc : Coordinates) (ip : Bool) (st : TrimState) (f0 : Feature)
    (rest : List Feature) (piece : TranscribedPiece) (pb : Nat)
    (h : classify f0 nc ip = .downstream)
    (hpb : st.piece_at_border = some pb) (hne : piece.id ≠ pb) :
    processGroup resolve nc ip st (f0 :: rest, piece) = .ok st := by
  simp [processGroup, h, hpb, hne]

theorem processGroup_downstream_border (resolve : Nat → Coordinates)
    (nc : Coordinates) (ip : Bool) (st : TrimState) (f0 : Feature)
    (rest : List Feature) (piece : TranscribedPiece) (pb : Nat)
    (dp : TranscribedPiece)
    (h : classify f0 nc ip = .downstream)
    (hpb : st.piece_at_border = some pb) (heq : piece.id = pb)
    (hdp : st.downstream_piece = some dp) :
    processGroup resolve nc ip st (f0 :: rest, piece)
      = .ok { st with
                piece_swaps := st.piece_swaps ++ (f0 :: rest).map fun f =>
                  { piece_id_old := pb, piece_id_new := dp.id, feat_id := f.id } } := by
  simp [processGroup, h, hpb, heq, downstream_piece, hdp]

/-! Helper lemmas: the walk and the final `NoFeaturesInSliceError` check. -/

theorem run_transitions_ok_cons (resolve : Nat → Coordinates) (nc : Coordinates)
    (ip : Bool) (g : List Feature × TranscribedPiece)
    (gs : List (List Feature × TranscribedPiece)) (st st2 : TrimState)
    (h : processGroup resolve nc ip st g = .ok st2) :
    run_transitions resolve nc ip (g :: gs) st
      = run_transitions resolve nc ip gs st2 := by
  simp [run_transitions, h]

theorem run_transitions_err_cons (resolve : Nat → Coordinates) (nc : Coordinates)
    (ip : Bool) (g : List Feature × TranscribedPiece)
    (gs : List (List Feature × TranscribedPiece)) (st : TrimState) (e : TrimError)
    (h : processGroup resolve nc ip st g = .error e) :
    run_transitions resolve nc ip (g :: gs) st = .error e := by
  simp [run_transitions, h]

theorem modify4new_slice_of_run_ok (resolve : Nat → Coordinates) (nc : Coordinates)
    (ip : Bool) (gen : List (List Feature × TranscribedPiece)) (st0 st : TrimState)
    (h : run_transitions resolve nc ip gen st0 = .ok st) :
    modify4new_slice resolve nc ip gen st0
      = if !st.seen_one_overlap then .error .noFeaturesInSlice
        else .ok { st with downstream_piece := none } := by
  simp [modify4new_slice, h]

theorem modify4new_slice_of_run_err (resolve : Nat → Coordinates) (nc : Coordinates)
    (ip : Bool) (gen : List (List Feature × TranscribedPiece)) (st0 : TrimState)
    (e : TrimError) (h : run_transitions resolve nc ip gen st0 = .error e) :
    modify4new_slice resolve nc ip gen st0 = .error e := by
  simp [modify4new_slice, h]

theorem processGroup_ne_noFeatures (resolve : Nat → Coordinates) (nc : Coordinates)
    (ip : Bool) (st : TrimState) (g : List Feature × TranscribedPiece) :
    processGroup resolve nc ip st g ≠ .error .noFeaturesInSlice := by
  intro h
  obtain ⟨gf, gp⟩ := g
  rcases gf with _ | ⟨f0, rest⟩
  · simp [processGroup] at h
  · rcases hc : classify f0 nc ip
    case detached =>
      rw [processGroup_noop resolve nc ip st f0 rest gp (Or.inl hc)] at h
      exact Except.noConfusion h
    case upstream =>
      rw [processGroup_noop resolve nc ip st f0 rest gp (Or.inr (Or.inl hc))] at h
      exact Except.noConfusion h
    case overlaps_upstream =>
      rw [processGroup_noop resolve nc ip st f0 rest gp (Or.inr (Or.inr hc))] at h
      exact Except.noConfusion h
    case contained =>
      rw [processGroup_contained resolve nc ip st f0 rest gp hc] at h
      exact Except.noConfusion h
    case overlaps_downstream =>
      rw [processGroup_ovdown resolve nc ip st f0 rest gp hc] at h
      exact border_loop_ne_noFeatures _ _ _ _ _ _ _ h
    case downstream =>
      simp only [processGroup, hc] at h
      rcases hpb : st.piece_at_border with _ | pb <;> rw [hpb] at h
      · exact Except.noConfusion h
      · simp only [] at h
        split at h <;> exact Except.noConfusion h
    case unreachable =>
      simp only [processGroup, hc] at h
      have h2 : TrimError.assertionError = TrimError.noFeaturesInSlice :=
        by injection h
      exact TrimError.noConfusion h2

theorem downstream_piece_seen (st : TrimState) (p : TranscribedPiece) :
    (downstream_piece st p).1.seen_one_overlap = st.seen_one_overlap := by
  rcases h : st.downstream_piece <;> simp [downstream_piece, h]

theorem processGroup_ok_seen (resolve : Nat → Coordinates) (nc : Coordinates)
    (ip : Bool) (st : TrimState) (g : List Feature × TranscribedPiece)
    (st' : TrimState) (h : processGroup resolve nc ip st g = .ok st') :
    st'.seen_one_overlap = (st.seen_one_overlap || group_sets_seen nc ip g) := by
  obtain ⟨gf, gp⟩ := g
  rcases gf with _ | ⟨f0, rest⟩
  · simp [processGroup] at h
  · rcases hc : classify f0 nc ip
    case detached =>
      rw [processGroup_noop resolve nc ip st f0 rest gp (Or.inl hc)] at h
      injection h with h2
      subst h2
      simp [group_sets_seen, hc]
    case upstream =>
      rw [processGroup_noop resolve nc ip st f0 rest gp (Or.inr (Or.inl hc))] at h
      injection h with h2
      subst h2
      simp [group_sets_seen, hc]
    case overlaps_upstream =>
      rw [processGroup_noop resolve nc ip st f0 rest gp (Or.inr (Or.inr hc))] at h
      injection h with h2
      subst h2
      simp [group_sets_seen, hc]
    case contained =>
      rw [processGroup_contained resolve nc ip st f0 rest gp hc] at h
      injection h with h2
      subst h2
      simp [group_sets_seen, hc]
    case overlaps_downstream =>
      rw [processGroup_ovdown resolve nc ip st f0 rest gp hc] at h
      have hf := border_loop_frame _ _ _ _ _ _ _ _ h
      have hseen : st'.seen_one_overlap = true := by
        rw [hf.2.2.2.2.2.2.2]
        rcases hdp : st.downstream_piece <;>
          simp [execute_so_far, downstream_piece, hdp]
      simp [group_sets_seen, hc, hseen]
    case downstream =>
      simp only [processGroup, hc] at h
      rcases hpb : st.piece_at_border with _ | pb <;> rw [hpb] at h
      · injection h with h2
        subst h2
        simp [group_sets_seen, hc]
      · simp only [] at h
        split at h <;> injection h with h2 <;> subst h2
        · rw [show ∀ (x : TrimState) (y : List PieceSwap),
              ({ x with piece_swaps := y } : TrimState).seen_one_overlap
                = x.seen_one_overlap from fun _ _ => rfl]
          rw [downstream_piece_seen]
          simp [group_sets_seen, hc]
        · simp [group_sets_seen, hc]
    case unreachable =>
      simp only [processGroup, hc] at h
      exact Except.noConfusion h

theorem processGroup_ok_no_hit (resolve : Nat → Coordinates) (nc : Coordinates)
    (ip : Bool) (st : TrimState) (f0 : Feature) (rest : List Feature)
    (piece : TranscribedPiece)
    (h1 : classify f0 nc ip ≠ .contained)
    (h2 : classify f0 nc ip ≠ .overlaps_downstream) :
    ∃ st', processGroup resolve nc ip st (f0 :: rest, piece) = .ok st' ∧
      st'.seen_one_overlap = st.seen_one_overlap := by
  rcases hc : classify f0 nc ip
  case detached =>
    exact ⟨st, processGroup_noop resolve nc ip st f0 rest piece (Or.inl hc), rfl⟩
  case upstream =>
    exact ⟨st, processGroup_noop resolve nc ip st f0 rest piece (Or.inr (Or.inl hc)), rfl⟩
  case overlaps_upstream =>
    exact ⟨st, processGroup_noop resolve nc ip st f0 rest piece (Or.inr (Or.inr hc)), rfl⟩
  case contained => exact absurd hc h1
  case overlaps_downstream => exact absurd hc h2
  case downstream =>
    rcases hpb : st.piece_at_border with _ | pb
    · exact ⟨st, processGroup_downstream_none resolve nc ip st f0 rest piece hc hpb, rfl⟩
    · by_cases hid : piece.id = pb
      · refine ⟨{ (downstream_piece st piece).1 with
            piece_swaps := (downstream_piece st piece).1.piece_swaps
              ++ (f0 :: rest).map fun f =>
                { piece_id_old := pb, piece_id_new := (downstream_piece st piece).2.id,
                  feat_id := f.id } }, ?_, ?_⟩
        · simp only [processGroup, hc, hpb, if_pos hid]
        · rw [show ∀ (x : TrimState) (y : List PieceSwap),
              ({ x with piece_swaps := y } : TrimState).seen_one_overlap
                = x.seen_one_overlap from fun _ _ => rfl]
          exact downstream_piece_seen st piece
      · exact ⟨st, processGroup_downstream_other resolve nc ip st f0 rest piece
          pb hc hpb hid, rfl⟩
  case unreachable => exact absurd hc (classify_ne_unreachable f0 nc ip)

theorem run_ne_noFeatures (resolve : Nat → Coordinates) (nc : Coordinates)
    (ip : Bool) (gen : List (List Feature × TranscribedPiece)) :
    ∀ st, run_transitions resolve nc ip gen st ≠ .error .noFeaturesInSlice := by
  induction gen with
  | nil => intro st h; exact Except.noConfusion h
  | cons g gs ih =>
    intro st h
    rcases hpg : processGroup resolve nc ip st g with e | st2
    · rw [run_transitions_err_cons resolve nc ip g gs st e hpg] at h
      injection h with h2
      subst h2
      exact processGroup_ne_noFeatures resolve nc ip st g hpg
    · rw [run_transitions_ok_cons resolve nc ip g gs st st2 hpg] at h
      exact ih st2 h

theorem run_ok_seen (resolve : Nat → Coordinates) (nc : Coordinates) (ip : Bool)
    (gen : List (List Feature × TranscribedPiece)) :
    ∀ st st', run_transitions resolve nc ip gen st = .ok st' →
    st'.seen_one_overlap
      = (st.seen_one_overlap || gen.any (group_sets_seen nc ip)) := by
  induction gen with
  | nil =>
    intro st st' h
    injection h with h2
    subst h2
    simp
  | cons g gs ih =>
    intro st st' h
    rcases hpg : processGroup resolve nc ip st g with e | st2
    · rw [run_transitions_err_cons resolve nc ip g gs st e hpg] at h
      exact Except.noConfusion h
    · rw [run_transitions_ok_cons resolve nc ip g gs st st2 hpg] at h
      rw [ih st2 st' h, processGroup_ok_seen resolve nc ip st g st2 hpg]
      simp [Bool.or_assoc]

theorem run_ok_no_hit (resolve : Nat → Coordinates) (nc : Coordinates) (ip : Bool)
    (gen : List (List Feature × TranscribedPiece)) :
    ∀ st, (∀ g ∈ gen, g.1 ≠ []) →
    (∀ g ∈ gen, ∀ f0 r, g.1 = f0 :: r →
      classify f0 nc ip ≠ .contained ∧ classify f0 nc ip ≠ .overlaps_downstream) →
    ∃ st', run_transitions resolve nc ip gen st = .ok st' ∧
      st'.seen_one_overlap = st.seen_one_overlap := by
  induction gen with
  | nil => intro st _ _; exact ⟨st, rfl, rfl⟩
  | cons g gs ih =>
    intro st hne hno
    obtain ⟨gf, gp⟩ := g
    rcases hgf : gf with _ | ⟨f0, rest⟩
    · exact absurd rfl (hgf ▸ hne (gf, gp) (List.mem_cons_self _ _))
    · obtain ⟨hn1, hn2⟩ := hno (gf, gp) (List.mem_cons_self _ _) f0 rest hgf
      subst hgf
      obtain ⟨st2, hok, hseen⟩ :=
        processGroup_ok_no_hit resolve nc ip st f0 rest gp hn1 hn2
      obtain ⟨st', hrun, hseen'⟩ := ih st2
        (fun g hg => hne g (List.mem_cons_of_mem _ hg))
        (fun g hg => hno g (List.mem_cons_of_mem _ hg))
      refine ⟨st', ?_, ?_⟩
      · rw [run_transitions_ok_cons resolve nc ip _ gs st st2 hok]
        exact hrun
      · rw [hseen', hseen]

/-- C2 (amended): `modify4new_slice` raises `NoFeaturesInSliceError` if and
only if, over the full walk of the transcript's feature groups, no group
was dispatched to the `is_contained` or the `overlaps_downstream` branch
(the only two branches that set `seen_one_overlap`); a group that merely
overlaps the upstream slice boundary does not count. -/
theorem c2_noFeatures_iff (resolve : Nat → Coordinates) (nc : Coordinates)
    (ip : Bool) (gen : List (List Feature × TranscribedPiece)) (st0 : TrimState)
    (hseen0 : st0.seen_one_overlap = false)
    (hne : ∀ g ∈ gen, g.1 ≠ []) :
    modify4new_slice resolve nc ip gen st0 = .error .noFeaturesInSlice ↔
      ∀ g ∈ gen, ∀ f0 r, g.1 = f0 :: r →
        classify f0 nc ip ≠ .contained ∧
          classify f0 nc ip ≠ .overlaps_downstream := by
  constructor
  · intro h g hg f0 r hgf
    rcases hrun : run_transitions resolve nc ip gen st0 with e | st
    · rw [modify4new_slice_of_run_err _ _ _ _ _ _ hrun] at h
      injection h with h2
      subst h2
      exact absurd hrun (run_ne_noFeatures _ _ _ _ _)
    · rw [modify4new_slice_of_run_ok _ _ _ _ _ _ hrun] at h
      by_cases hs : st.seen_one_overlap = true
      · rw [hs] at h
        simp at h
      · have hs' : st.seen_one_overlap = false := by
          cases hb : st.seen_one_overlap
          · rfl
          · exact absurd hb hs
        have hseen := run_ok_seen resolve nc ip gen st0 st hrun
        rw [hseen0, hs'] at hseen
        simp only [Bool.false_or] at hseen
        have hg' : group_sets_seen nc ip g = false := by
          have hany := hseen.symm
          rw [List.any_eq_false] at hany
          have := hany g hg
          cases hgss : group_sets_seen nc ip g
          · rfl
          · exact absurd hgss this
        rw [group_sets_seen, hgf] at hg'
        simp only [Bool.or_eq_false_iff, decide_eq_false_iff_not] at hg'
        exact hg'
  · intro hno
    obtain ⟨st', hrun, hseen⟩ := run_ok_no_hit resolve nc ip gen st0 hne hno
    rw [modify4new_slice_of_run_ok _ _ _ _ _ _ hrun, hseen, hseen0]
    simp

theorem run_no_border (resolve : Nat → Coordinates) (nc : Coordinates) (ip : Bool)
    (gen : List (List Feature × TranscribedPiece)) :
    ∀ st0 : TrimState, st0.piece_at_border = none →
    (∀ g ∈ gen, g.1 ≠ []) →
    (∀ g ∈ gen, ∀ f0 r, g.1 = f0 :: r →
      classify f0 nc ip ≠ .overlaps_downstream) →
    ∃ st', run_transitions resolve nc ip gen st0 = .ok st' ∧
      st'.features = st0.features ∧
      st'.created = st0.created ∧
      st'.pieces = st0.pieces ∧
      st'.coord_swaps
        = st0.coord_swaps ++ (gen.map (group_coord_swaps nc ip)).flatten ∧
      st'.piece_swaps = st0.piece_swaps ∧
      st'.applied_coord_swaps = st0.applied_coord_swaps ∧
      st'.applied_piece_swaps = st0.applied_piece_swaps ∧
      st'.downstream_piece = st0.downstream_piece ∧
      st'.piece_at_border = none ∧
      st'.seen_one_overlap
        = (st0.seen_one_overlap || gen.any (group_sets_seen nc ip)) ∧
      st'.next_id = st0.next_id := by
  induction gen with
  | nil =>
    intro st0 hpb _ _
    exact ⟨st0, rfl, rfl, rfl, rfl, by simp, rfl, rfl, rfl, rfl, hpb, by simp, rfl⟩
  | cons g gs ih =>
    intro st0 hpb hne hno
    obtain ⟨gf, gp⟩ := g
    rcases hgf : gf with _ | ⟨f0, rest⟩
    · exact absurd rfl (hgf ▸ hne (gf, gp) (List.mem_cons_self _ _))
    · subst hgf
      have hnov := hno _ (List.mem_cons_self _ _) f0 rest rfl
      have step_same : ∀ st2 : TrimState,
          processGroup resolve nc ip st0 (f0 :: rest, gp) = .ok st0 →
          group_coord_swaps nc ip (f0 :: rest, gp) = [] →
          group_sets_seen nc ip (f0 :: rest, gp) = false →
          ∃ st', run_transitions resolve nc ip ((f0 :: rest, gp) :: gs) st0 = .ok st' ∧
            st'.features = st0.features ∧ st'.created = st0.created ∧
            st'.pieces = st0.pieces ∧
            st'.coord_swaps = st0.coord_swaps
              ++ (((f0 :: rest, gp) :: gs).map (group_coord_swaps nc ip)).flatten ∧
            st'.piece_swaps = st0.piece_swaps ∧
            st'.applied_coord_swaps = st0.applied_coord_swaps ∧
            st'.applied_piece_swaps = st0.applied_piece_swaps ∧
            st'.downstream_piece = st0.downstream_piece ∧
            st'.piece_at_border = none ∧
            st'.seen_one_overlap = (st0.seen_one_overlap
              || (((f0 :: rest, gp) :: gs).any (group_sets_seen nc ip))) ∧
            st'.next_id = st0.next_id := by
        intro _ hok hsw hss
        obtain ⟨st', h1, h2, h3, h4, h5, h6, h7, h8, h9, h10, h11, h12⟩ :=
          ih st0 hpb (fun g hg => hne g (List.mem_cons_of_mem _ hg))
            (fun g hg => hno g (List.mem_cons_of_mem _ hg))
        refine ⟨st', ?_, h2, h3, h4, ?_, h6, h7, h8, h9, h10, ?_, h12⟩
        · rw [run_transitions_ok_cons resolve nc ip _ gs st0 st0 hok]
          exact h1
        · rw [h5, List.map_cons, List.flatten_cons, hsw, List.nil_append]
        · rw [h11, List.any_cons, hss, Bool.false_or]
      rcases hc : classify f0 nc ip
      case detached =>
        exact step_same st0 (processGroup_noop resolve nc ip st0 f0 rest gp (Or.inl hc))
          (by simp [group_coord_swaps, hc]) (by simp [group_sets_seen, hc])
      case upstream =>
        exact step_same st0
          (processGroup_noop resolve nc ip st0 f0 rest gp (Or.inr (Or.inl hc)))
          (by simp [group_coord_swaps, hc]) (by simp [group_sets_seen, hc])
      case overlaps_upstream =>
        exact step_same st0
          (processGroup_noop resolve nc ip st0 f0 rest gp (Or.inr (Or.inr hc)))
          (by simp [group_coord_swaps, hc]) (by simp [group_sets_seen, hc])
      case downstream =>
        exact step_same st0
          (processGroup_downstream_none resolve nc ip st0 f0 rest gp hc hpb)
          (by simp [group_coord_swaps, hc]) (by simp [group_sets_seen, hc])
      case overlaps_downstream => exact absurd hc hnov
      case unreachable => exact absurd hc (classify_ne_unreachable f0 nc ip)
      case contained =>
        obtain ⟨st', h1, h2, h3, h4, h5, h6, h7, h8, h9, h10, h11, h12⟩ :=
          ih { st0 with
                 seen_one_overlap := true
                 coord_swaps := st0.coord_swaps ++ (f0 :: rest).map fun f =>
                   { feat_id := f.id, coordinate_id_new := nc.id } }
            hpb (fun g hg => hne g (List.mem_cons_of_mem _ hg))
            (fun g hg => hno g (List.mem_cons_of_mem _ hg))
        refine ⟨st', ?_, h2, h3, h4, ?_, h6, h7, h8, h9, h10, ?_, h12⟩
        · rw [run_transitions_ok_cons resolve nc ip _ gs st0 _
            (processGroup_contained resolve nc ip st0 f0 rest gp hc)]
          exact h1
        · rw [h5]
          simp [group_coord_swaps, hc, List.append_assoc, List.flatten_cons]
        · rw [h11]
          simp [group_sets_seen, hc]

/-- C9: trimming against a slice that covers the whole span of every
feature (in strand-adjusted coordinates, same seqid, same strand) is a
no-op on intervals: every group classifies as `contained`,
`modify4new_slice` succeeds, no piece is split and no feature is created,
and the per-feature `(start, end)` intervals of the store are unchanged,
also after the pending batch is applied. -/
theorem c9_full_span_noop (resolve : Nat → Coordinates) (nc : Coordinates)
    (ip : Bool) (gen : List (List Feature × TranscribedPiece)) (st0 : TrimState)
    (hpb : st0.piece_at_border = none)
    (hseen0 : st0.seen_one_overlap = false)
    (hgen : gen ≠ [])
    (hne : ∀ g ∈ gen, g.1 ≠ [])
    (hspan : ∀ g ∈ gen, ∀ f ∈ g.1,
      f.coordinate.seqid = nc.seqid ∧ f.is_plus_strand = ip ∧
      nc.start ≤ py_start f ip ∧ py_end f ip ≤ nc.«end» ∧
      py_start f ip < py_end f ip) :
    ∃ st', modify4new_slice resolve nc ip gen st0 = .ok st' ∧
      (∀ g ∈ gen, ∀ f0 r, g.1 = f0 :: r → classify f0 nc ip = .contained) ∧
      st'.created = st0.created ∧
      st'.pieces = st0.pieces ∧
      st'.piece_swaps = st0.piece_swaps ∧
      st'.features = st0.features ∧
      (execute_so_far resolve st').features.map (fun f => (f.start, f.«end»))
        = st0.features.map (fun f => (f.start, f.«end»)) := by
  have hcls : ∀ g ∈ gen, ∀ f0 r, g.1 = f0 :: r → classify f0 nc ip = .contained := by
    intro g hg f0 r hgf
    have hf0 : f0 ∈ g.1 := by
      rw [hgf]
      exact List.mem_cons_self _ _
    obtain ⟨a, b, c, d, e⟩ := hspan g hg f0 hf0
    exact classify_contained_of_span f0 nc ip a b c d e
  obtain ⟨stF, h1, h2, h3, h4, h5, h6, h7, h8, h9, h10, h11, h12⟩ :=
    run_no_border resolve nc ip gen st0 hpb hne
      (fun g hg f0 r hgf => by
        rw [hcls g hg f0 r hgf]
        intro hcon
        exact Classification.noConfusion hcon)
  have hany : gen.any (group_sets_seen nc ip) = true := by
    rcases gen with _ | ⟨g, gs⟩
    · exact absurd rfl hgen
    · rcases hgf : g.1 with _ | ⟨f0, r⟩
      · exact absurd hgf (hne g (List.mem_cons_self _ _))
      · rw [List.any_cons]
        have hcg := hcls g (List.mem_cons_self _ _) f0 r hgf
        simp [group_sets_seen, hgf, hcg]
  have hseenF : stF.seen_one_overlap = true := by
    rw [h11, hseen0, hany]
    rfl
  refine ⟨{ stF with downstream_piece := none }, ?_, hcls, h3, h4, h6, h2, ?_⟩
  · rw [modify4new_slice_of_run_ok _ _ _ _ _ _ h1, hseenF]
    rfl
  · show (stF.features.map fun f =>
        apply_piece_swaps stF.piece_swaps
          (apply_coord_swaps resolve stF.coord_swaps f)).map
        (fun f => (f.start, f.«end»))
      = st0.features.map fun f => (f.start, f.«end»)
    rw [List.map_map, h2]
    have hfun : ((fun f : Feature => (f.start, f.«end»)) ∘ fun f =>
        apply_piece_swaps stF.piece_swaps
          (apply_coord_swaps resolve stF.coord_swaps f))
        = fun f : Feature => (f.start, f.«end») := by
      funext f
      show ((apply_piece_swaps stF.piece_swaps
          (apply_coord_swaps resolve stF.coord_swaps f)).start,
        (apply_piece_swaps stF.piece_swaps
          (apply_coord_swaps resolve stF.coord_swaps f)).«end»)
        = (f.start, f.«end»)
      rw [(apply_piece_swaps_start_end _ _).1, (apply_piece_swaps_start_end _ _).2,
        (apply_coord_swaps_start_end _ _ _).1, (apply_coord_swaps_start_end _ _ _).2]
    rw [hfun]

/-- C7 (amended): mutations are grouped in the batch queue, and the only
flush `modify4new_slice` itself performs is the `execute_so_far` of the
`overlaps_downstream` branch: on a walk in which no group crosses the
downstream border (but at least one group sets `seen_one_overlap`, so the
call returns normally), nothing is flushed — the applied-record lists are
untouched and every enqueued coordinate swap is still pending in the queue
when the call returns. -/
theorem c7_queue_pending_without_border (resolve : Nat → Coordinates)
    (nc : Coordinates) (ip : Bool)
    (gen : List (List Feature × TranscribedPiece)) (st0 : TrimState)
    (hpb : st0.piece_at_border = none)
    (hne : ∀ g ∈ gen, g.1 ≠ [])
    (hno : ∀ g ∈ gen, ∀ f0 r, g.1 = f0 :: r →
      classify f0 nc ip ≠ .overlaps_downstream)
    (hhit : ∃ g ∈ gen, group_sets_seen nc ip g = true) :
    ∃ st', modify4new_slice resolve nc ip gen st0 = .ok st' ∧
      st'.applied_coord_swaps = st0.applied_coord_swaps ∧
      st'.applied_piece_swaps = st0.applied_piece_swaps ∧
      st'.coord_swaps
        = st0.coord_swaps ++ (gen.map (group_coord_swaps nc ip)).flatten ∧
      st'.piece_swaps = st0.piece_swaps := by
  obtain ⟨stF, h1, h2, h3, h4, h5, h6, h7, h8, h9, h10, h11, h12⟩ :=
    run_no_border resolve nc ip gen st0 hpb hne hno
  have hany : gen.any (group_sets_seen nc ip) = true := by
    obtain ⟨g, hg, hgss⟩ := hhit
    exact List.any_eq_true.2 ⟨g, hg, hgss⟩
  have hseenF : stF.seen_one_overlap = true := by
    rw [h11, hany, Bool.or_true]
  refine ⟨{ stF with downstream_piece := none }, ?_, h7, h8, h5, h6⟩
  rw [modify4new_slice_of_run_ok _ _ _ _ _ _ h1, hseenF]
  rfl

/-! Helper lemmas: tracking one contained feature through the walk. -/

theorem execute_find (resolve : Nat → Coordinates) (st : TrimState) (i : Nat) :
    findFeature (execute_so_far resolve st).features i
      = Option.map (fun f => apply_piece_swaps st.piece_swaps
          (apply_coord_swaps resolve st.coord_swaps f)) (findFeature st.features i) :=
  findFeature_map _
    (fun x => by rw [apply_piece_swaps_id, apply_coord_swaps_id]) _ _

theorem downstream_piece_fields (st : TrimState) (p : TranscribedPiece) :
    (downstream_piece st p).1.features = st.features ∧
      (downstream_piece st p).1.coord_swaps = st.coord_swaps ∧
      (downstream_piece st p).1.piece_swaps = st.piece_swaps ∧
      (downstream_piece st p).1.applied_coord_swaps = st.applied_coord_swaps ∧
      (downstream_piece st p).1.applied_piece_swaps = st.applied_piece_swaps ∧
      (downstream_piece st p).1.created = st.created := by
  rcases h : st.downstream_piece <;> simp [downstream_piece, h]

theorem c3pre_step (resolve : Nat → Coordinates) (nc : Coordinates) (ip : Bool)
    (st st' : TrimState) (f : Feature) (g : List Feature × TranscribedPiece)
    (hinv : C3Pre f st)
    (hnid : ∀ x ∈ g.1, x.id ≠ f.id)
    (h : processGroup resolve nc ip st g = .ok st') :
    C3Pre f st' := by
  obtain ⟨hfind, hcs, hps⟩ := hinv
  obtain ⟨gf, gp⟩ := g
  rcases gf with _ | ⟨f0, rest⟩
  · simp [processGroup] at h
  · rcases hc : classify f0 nc ip
    case detached =>
      rw [processGroup_noop resolve nc ip st f0 rest gp (Or.inl hc)] at h
      injection h with h2
      subst h2
      exact ⟨hfind, hcs, hps⟩
    case upstream =>
      rw [processGroup_noop resolve nc ip st f0 rest gp (Or.inr (Or.inl hc))] at h
      injection h with h2
      subst h2
      exact ⟨hfind, hcs, hps⟩
    case overlaps_upstream =>
      rw [processGroup_noop resolve nc ip st f0 rest gp (Or.inr (Or.inr hc))] at h
      injection h with h2
      subst h2
      exact ⟨hfind, hcs, hps⟩
    case contained =>
      rw [processGroup_contained resolve nc ip st f0 rest gp hc] at h
      injection h with h2
      subst h2
      refine ⟨hfind, ?_, hps⟩
      intro cs hcsm
      rcases List.mem_append.1 hcsm with hm | hm
      · exact hcs cs hm
      · obtain ⟨x, hx, rfl⟩ := List.mem_map.1 hm
        exact hnid x hx
    case overlaps_downstream =>
      rw [processGroup_ovdown resolve nc ip st f0 rest gp hc] at h
      have hfr := border_loop_frame _ _ _ _ _ _ _ _ h
      have hfind2 := border_loop_find_ne _ _ _ _ _ _ _ _ f.id h
        (fun x hx => hnid x hx)
      obtain ⟨hdf, hdc, hdp2, _, _, _⟩ := downstream_piece_fields
        { st with seen_one_overlap := true, piece_at_border := some gp.id } gp
      refine ⟨?_, ?_, ?_⟩
      · rw [hfind2, execute_find, hdf, hdc, hdp2]
        show Option.map _ (findFeature st.features f.id) = some f
        rw [hfind]
        show some (apply_piece_swaps st.piece_swaps
          (apply_coord_swaps resolve st.coord_swaps f)) = some f
        rw [apply_coord_swaps_not_mem resolve st.coord_swaps f hcs,
          apply_piece_swaps_not_mem st.piece_swaps f hps]
      · rw [hfr.1]
        intro cs hcsm
        exact absurd hcsm (by simp [execute_so_far])
      · rw [hfr.2.1]
        intro ps hpsm
        exact absurd hpsm (by simp [execute_so_far])
    case downstream =>
      simp only [processGroup, hc] at h
      rcases hpb : st.piece_at_border with _ | pb <;> rw [hpb] at h
      · injection h with h2
        subst h2
        exact ⟨hfind, hcs, hps⟩
      · simp only [] at h
        split at h <;> injection h with h2 <;> subst h2
        · obtain ⟨hdf, hdc, hdp2, _, _, _⟩ := downstream_piece_fields st gp
          refine ⟨?_, ?_, ?_⟩
          · show findFeature (downstream_piece st gp).1.features f.id = some f
            rw [hdf]
            exact hfind
          · show ∀ cs ∈ (downstream_piece st gp).1.coord_swaps, cs.feat_id ≠ f.id
            rw [hdc]
            exact hcs
          · intro ps hpsm
            rcases List.mem_append.1 (by exact hpsm) with hm | hm
            · rw [hdp2] at hm
              exact hps ps hm
            · obtain ⟨x, hx, rfl⟩ := List.mem_map.1 hm
              exact hnid x hx
        · exact ⟨hfind, hcs, hps⟩
    case unreachable =>
      simp only [processGroup, hc] at h
      exact Except.noConfusion h

theorem c3_step_contained (resolve : Nat → Coordinates) (nc : Coordinates)
    (ip : Bool) (st st' : TrimState) (f : Feature) (gf : List Feature)
    (gp : TranscribedPiece)
    (hinv : C3Pre f st)
    (hf : f ∈ gf)
    (hcls : ∀ f0 r, gf = f0 :: r → classify f0 nc ip = .contained)
    (h : processGroup resolve nc ip st (gf, gp) = .ok st') :
    C3Post nc f st' := by
  obtain ⟨hfind, hcs, hps⟩ := hinv
  rcases gf with _ | ⟨f0, rest⟩
  · cases hf
  · rw [processGroup_contained resolve nc ip st f0 rest gp
      (hcls f0 rest rfl)] at h
    injection h with h2
    subst h2
    refine ⟨?_, hps, Or.inl ⟨hfind, ?_⟩⟩
    · intro cs hcsm hcsf
      rcases List.mem_append.1 hcsm with hm | hm
      · exact absurd hcsf (hcs cs hm)
      · obtain ⟨x, hx, rfl⟩ := List.mem_map.1 hm
        rfl
    · refine List.mem_append_right _ ?_
      exact List.mem_map.2 ⟨f, hf, rfl⟩

theorem c3post_step (resolve : Nat → Coordinates) (nc : Coordinates) (ip : Bool)
    (st st' : TrimState) (f : Feature) (g : List Feature × TranscribedPiece)
    (hres : resolve nc.id = nc)
    (hinv : C3Post nc f st)
    (hnid : ∀ x ∈ g.1, x.id ≠ f.id)
    (h : processGroup resolve nc ip st g = .ok st') :
    C3Post nc f st' := by
  obtain ⟨hcs, hps, hcase⟩ := hinv
  obtain ⟨gf, gp⟩ := g
  rcases gf with _ | ⟨f0, rest⟩
  · simp [processGroup] at h
  · rcases hc : classify f0 nc ip
    case detached =>
      rw [processGroup_noop resolve nc ip st f0 rest gp (Or.inl hc)] at h
      injection h with h2
      subst h2
      exact ⟨hcs, hps, hcase⟩
    case upstream =>
      rw [processGroup_noop resolve nc ip st f0 rest gp (Or.inr (Or.inl hc))] at h
      injection h with h2
      subst h2
      exact ⟨hcs, hps, hcase⟩
    case overlaps_upstream =>
      rw [processGroup_noop resolve nc ip st f0 rest gp (Or.inr (Or.inr hc))] at h
      injection h with h2
      subst h2
      exact ⟨hcs, hps, hcase⟩
    case contained =>
      rw [processGroup_contained resolve nc ip st f0 rest gp hc] at h
      injection h with h2
      subst h2
      refine ⟨?_, hps, ?_⟩
      · intro cs hcsm hcsf
        rcases List.mem_append.1 hcsm with hm | hm
        · exact hcs cs hm hcsf
        · obtain ⟨x, hx, rfl⟩ := List.mem_map.1 hm
          rfl
      · rcases hcase with ⟨hfind, hmem⟩ | hfind
        · exact Or.inl ⟨hfind, List.mem_append_left _ hmem⟩
        · exact Or.inr hfind
    case overlaps_downstream =>
      rw [processGroup_ovdown resolve nc ip st f0 rest gp hc] at h
      have hfr := border_loop_frame _ _ _ _ _ _ _ _ h
      have hfind2 := border_loop_find_ne _ _ _ _ _ _ _ _ f.id h
        (fun x hx => hnid x hx)
      obtain ⟨hdf, hdc, hdp2, _, _, _⟩ := downstream_piece_fields
        { st with seen_one_overlap := true, piece_at_border := some gp.id } gp
      refine ⟨?_, ?_, Or.inr ?_⟩
      · rw [hfr.1]
        intro cs hcsm
        exact absurd hcsm (by simp [execute_so_far])
      · rw [hfr.2.1]
        intro ps hpsm
        exact absurd hpsm (by simp [execute_so_far])
      · rw [hfind2, execute_find, hdf, hdc, hdp2]
        rcases hcase with ⟨hfind, hmem⟩ | hfind
        · rw [hfind]
          show some (apply_piece_swaps st.piece_swaps
            (apply_coord_swaps resolve st.coord_swaps f)) = _
          rw [apply_coord_swaps_mem resolve nc st.coord_swaps f hres hcs hmem,
            apply_piece_swaps_not_mem st.piece_swaps { f with coordinate := nc }
              (fun ps hm => hps ps hm)]
        · rw [hfind]
          show some (apply_piece_swaps st.piece_swaps
            (apply_coord_swaps resolve st.coord_swaps
              { f with coordinate := nc })) = _
          rcases apply_coord_swaps_canonical resolve nc st.coord_swaps
              { f with coordinate := nc } hres (fun cs hm hid => hcs cs hm hid) with
            h2 | h2
          · rw [h2, apply_piece_swaps_not_mem st.piece_swaps
              { f with coordinate := nc } (fun ps hm => hps ps hm)]
          · rw [h2]
            rw [show ({ ({ f with coordinate := nc } : Feature) with
              coordinate := nc } : Feature) = { f with coordinate := nc } from rfl]
            rw [apply_piece_swaps_not_mem st.piece_swaps
              { f with coordinate := nc } (fun ps hm => hps ps hm)]
    case downstream =>
      simp only [processGroup, hc] at h
      rcases hpb : st.piece_at_border with _ | pb <;> rw [hpb] at h
      · injection h with h2
        subst h2
        exact ⟨hcs, hps, hcase⟩
      · simp only [] at h
        split at h <;> injection h with h2 <;> subst h2
        · obtain ⟨hdf, hdc, hdp2, _, _, _⟩ := downstream_piece_fields st gp
          refine ⟨?_, ?_, ?_⟩
          · show ∀ cs ∈ (downstream_piece st gp).1.coord_swaps, _
            rw [hdc]
            exact hcs
          · intro ps hpsm
            rcases List.mem_append.1 (by exact hpsm) with hm | hm
            · rw [hdp2] at hm
              exact hps ps hm
            · obtain ⟨x, hx, rfl⟩ := List.mem_map.1 hm
              exact hnid x hx
          · show (findFeature (downstream_piece st gp).1.features f.id = some f ∧
                _ ∈ (downstream_piece st gp).1.coord_swaps) ∨
              findFeature (downstream_piece st gp).1.features f.id
                = some { f with coordinate := nc }
            rw [hdf, hdc]
            exact hcase
        · exact ⟨hcs, hps, hcase⟩
    case unreachable =>
      simp only [processGroup, hc] at h
      exact Except.noConfusion h

theorem run_transitions_append (resolve : Nat → Coordinates) (nc : Coordinates)
    (ip : Bool) (l1 l2 : List (List Feature × TranscribedPiece)) :
    ∀ st, run_transitions resolve nc ip (l1 ++ l2) st
      = match run_transitions resolve nc ip l1 st with
        | .error e => .error e
        | .ok st1 => run_transitions resolve nc ip l2 st1 := by
  induction l1 with
  | nil => intro st; rfl
  | cons g gs ih =>
    intro st
    rcases hpg : processGroup resolve nc ip st g with e | st2
    · rw [List.cons_append, run_transitions_err_cons resolve nc ip g _ st e hpg,
        run_transitions_err_cons resolve nc ip g gs st e hpg]
    · rw [List.cons_append, run_transitions_ok_cons resolve nc ip g _ st st2 hpg,
        run_transitions_ok_cons resolve nc ip g gs st st2 hpg]
      exact ih st2

theorem c3pre_run (resolve : Nat → Coordinates) (nc : Coordinates) (ip : Bool)
    (f : Feature) (pre : List (List Feature × TranscribedPiece)) :
    ∀ st st', C3Pre f st →
    (∀ g ∈ pre, ∀ x ∈ g.1, x.id ≠ f.id) →
    run_transitions resolve nc ip pre st = .ok st' →
    C3Pre f st' := by
  induction pre with
  | nil =>
    intro st st' hinv _ h
    injection h with h2
    subst h2
    exact hinv
  | cons g gs ih =>
    intro st st' hinv hnid h
    rcases hpg : processGroup resolve nc ip st g with e | st2
    · rw [run_transitions_err_cons resolve nc ip g gs st e hpg] at h
      exact Except.noConfusion h
    · rw [run_transitions_ok_cons resolve nc ip g gs st st2 hpg] at h
      exact ih st2 st'
        (c3pre_step resolve nc ip st st2 f g hinv
          (hnid g (List.mem_cons_self _ _)) hpg)
        (fun g' hg' => hnid g' (List.mem_cons_of_mem _ hg')) h

theorem c3post_run (resolve : Nat → Coordinates) (nc : Coordinates) (ip : Bool)
    (f : Feature) (post : List (List Feature × TranscribedPiece))
    (hres : resolve nc.id = nc) :
    ∀ st st', C3Post nc f st →
    (∀ g ∈ post, ∀ x ∈ g.1, x.id ≠ f.id) →
    run_transitions resolve nc ip post st = .ok st' →
    C3Post nc f st' := by
  induction post with
  | nil =>
    intro st st' hinv _ h
    injection h with h2
    subst h2
    exact hinv
  | cons g gs ih =>
    intro st st' hinv hnid h
    rcases hpg : processGroup resolve nc ip st g with e | st2
    · rw [run_transitions_err_cons resolve nc ip g gs st e hpg] at h
      exact Except.noConfusion h
    · rw [run_transitions_ok_cons resolve nc ip g gs st st2 hpg] at h
      exact ih st2 st'
        (c3post_step resolve nc ip st st2 f g hres hinv
          (hnid g (List.mem_cons_self _ _)) hpg)
        (fun g' hg' => hnid g' (List.mem_cons_of_mem _ hg')) h

/-- C3: for a feature of a feature group whose strand-adjusted intervals lie
entirely within the slice's half-open `[start, end)` window (same seqid,
same strand), if `modify4new_slice` returns normally then, once the pending
batch of the call has been applied, the feature's row has `coordinate`
equal to the slice Coordinates and every other field — in particular
`start` and `end` — unchanged. -/
theorem c3_contained_feature_coordinates (resolve : Nat → Coordinates)
    (nc : Coordinates) (ip : Bool)
    (gen : List (List Feature × TranscribedPiece)) (st0 stF : TrimState)
    (f : Feature) (g : List Feature × TranscribedPiece)
    (hres : resolve nc.id = nc)
    (hg : g ∈ gen) (hf : f ∈ g.1)
    (hspan : ∀ x ∈ g.1,
      x.coordinate.seqid = nc.seqid ∧ x.is_plus_strand = ip ∧
      nc.start ≤ py_start x ip ∧ py_end x ip ≤ nc.«end» ∧
      py_start x ip < py_end x ip)
    (hids : (((gen.map Prod.fst).flatten).map Feature.id).Nodup)
    (hstore : findFeature st0.features f.id = some f)
    (hq1 : st0.coord_swaps = []) (hq2 : st0.piece_swaps = [])
    (hrun : modify4new_slice resolve nc ip gen st0 = .ok stF) :
    findFeature (execute_so_far resolve stF).features f.id
      = some { f with coordinate := nc } := by
  have hcls : ∀ f0 r, g.1 = f0 :: r → classify f0 nc ip = .contained := by
    intro f0 r hgf
    have hf0 : f0 ∈ g.1 := by
      rw [hgf]
      exact List.mem_cons_self _ _
    obtain ⟨a, b, c, d, e⟩ := hspan f0 hf0
    exact classify_contained_of_span f0 nc ip a b c d e
  obtain ⟨pre, post, rfl⟩ := List.append_of_mem hg
  have hfidG : f.id ∈ g.1.map Feature.id := List.mem_map_of_mem _ hf
  have hidsplit :
      (((pre ++ g :: post).map Prod.fst).flatten).map Feature.id
        = ((pre.map Prod.fst).flatten).map Feature.id
          ++ (g.1.map Feature.id
            ++ ((post.map Prod.fst).flatten).map Feature.id) := by
    rw [List.map_append, List.flatten_append, List.map_cons, List.flatten_cons,
      List.map_append, List.map_append]
  rw [hidsplit] at hids
  have hdisj1 := (List.nodup_append.1 hids).2.2
  have hnodupGB := (List.nodup_append.1 hids).2.1
  have hdisj2 := (List.nodup_append.1 hnodupGB).2.2
  have hpre_ne : ∀ g' ∈ pre, ∀ x ∈ g'.1, x.id ≠ f.id := by
    intro g' hg' x hx hxid
    have hxA : x.id ∈ ((pre.map Prod.fst).flatten).map Feature.id := by
      refine List.mem_map_of_mem _ ?_
      exact List.mem_flatten.2 ⟨g'.1, List.mem_map_of_mem _ hg', hx⟩
    exact hdisj1 hxA (List.mem_append_left _ (hxid ▸ hfidG))
  have hpost_ne : ∀ g' ∈ post, ∀ x ∈ g'.1, x.id ≠ f.id := by
    intro g' hg' x hx hxid
    have hxB : x.id ∈ ((post.map Prod.fst).flatten).map Feature.id := by
      refine List.mem_map_of_mem _ ?_
      exact List.mem_flatten.2 ⟨g'.1, List.mem_map_of_mem _ hg', hx⟩
    exact hdisj2 (hxid ▸ hfidG) hxB
  rcases hrunv : run_transitions resolve nc ip (pre ++ g :: post) st0 with e | stR
  · rw [modify4new_slice_of_run_err _ _ _ _ _ _ hrunv] at hrun
    exact Except.noConfusion hrun
  · rw [modify4new_slice_of_run_ok _ _ _ _ _ _ hrunv] at hrun
    by_cases hs : stR.seen_one_overlap = true
    · rw [hs] at hrun
      simp only [Bool.not_true, Bool.false_eq_true, if_false] at hrun
      injection hrun with h2
      subst h2
      rw [run_transitions_append] at hrunv
      rcases hrp : run_transitions resolve nc ip pre st0 with e | st1 <;>
        rw [hrp] at hrunv
      · exact Except.noConfusion hrunv
      · have hc3pre1 : C3Pre f st1 := by
          refine c3pre_run resolve nc ip f pre st0 st1 ⟨hstore, ?_, ?_⟩ hpre_ne hrp
          · intro cs hcsm
            rw [hq1] at hcsm
            cases hcsm
          · intro ps hpsm
            rw [hq2] at hpsm
            cases hpsm
        have hrunv2 : run_transitions resolve nc ip (g :: post) st1 = .ok stR :=
          hrunv
        rcases hpg : processGroup resolve nc ip st1 g with e | st2
        · rw [run_transitions_err_cons resolve nc ip g post st1 e hpg] at hrunv2
          exact Except.noConfusion hrunv2
        · rw [run_transitions_ok_cons resolve nc ip g post st1 st2 hpg] at hrunv2
          have hc3post2 : C3Post nc f st2 :=
            c3_step_contained resolve nc ip st1 st2 f g.1 g.2 hc3pre1 hf hcls hpg
          have hc3postR : C3Post nc f stR :=
            c3post_run resolve nc ip f post hres st2 stR hc3post2 hpost_ne hrunv2
          obtain ⟨hcsR, hpsR, hcase⟩ := hc3postR
          rcases hcase with ⟨hfind, hmem⟩ | hfind
          · rw [execute_find]
            show Option.map _
              (findFeature ({ stR with downstream_piece := none } : TrimState).features
                f.id) = _
            rw [show ({ stR with downstream_piece := none } : TrimState).features
              = stR.features from rfl, hfind]
            show some (apply_piece_swaps stR.piece_swaps
              (apply_coord_swaps resolve stR.coord_swaps f)) = _
            rw [apply_coord_swaps_mem resolve nc stR.coord_swaps f hres hcsR hmem,
              apply_piece_swaps_not_mem stR.piece_swaps { f with coordinate := nc }
                (fun ps hm => hpsR ps hm)]
          · rw [execute_find]
            rw [show ({ stR with downstream_piece := none } : TrimState).features
              = stR.features from rfl, hfind]
            show some (apply_piece_swaps stR.piece_swaps
              (apply_coord_swaps resolve stR.coord_swaps
                { f with coordinate := nc })) = _
            rcases apply_coord_swaps_canonical resolve nc stR.coord_swaps
                { f with coordinate := nc } hres
                (fun cs hm hid => hcsR cs hm hid) with h2 | h2
            · rw [h2, apply_piece_swaps_not_mem stR.piece_swaps
                { f with coordinate := nc } (fun ps hm => hpsR ps hm)]
            · rw [h2]
              rw [show ({ ({ f with coordinate := nc } : Feature) with
                coordinate := nc } : Feature) = { f with coordinate := nc } from rfl]
              rw [apply_piece_swaps_not_mem stR.piece_swaps
                { f with coordinate := nc } (fun ps hm => hpsR ps hm)]
    · have hs' : stR.seen_one_overlap = false := by
        cases hb : stR.seen_one_overlap
        · rfl
        · exact absurd hb hs
      rw [hs'] at hrun
      simp only [Bool.not_false, if_true] at hrun
      exact Except.noConfusion hrun

/-- C1: on a group that `modify4new_slice` classifies `overlaps_downstream`,
the cut point is `new_coords.end` on the plus strand and
`new_coords.start - 1` on the minus strand; exactly one new downstream
feature is created per feature of the group — a copy of its template with
`start` at the cut point, `end` at the template's pre-trim `end`,
`coordinate` the original coordinates, and the old piece swapped for the
new downstream piece — while the template itself is committed back to the
store with its `end` at the cut point and its `coordinate` moved to the
slice; in strand-adjusted coordinates the trimmed template and the new
feature are adjacent and together cover exactly the pre-trim interval. -/
theorem c1_downstream_border_split (resolve : Nat → Coordinates)
    (nc : Coordinates) (ip : Bool) (st : TrimState) (f0 : Feature)
    (rest : List Feature) (piece : TranscribedPiece)
    (hcls : classify f0 nc ip = .overlaps_downstream)
    (hmem : ∀ f ∈ f0 :: rest, piece.id ∈ f.transcribed_pieces)
    (hq1 : st.coord_swaps = []) (hq2 : st.piece_swaps = []) :
    ∃ st' npid ds,
      processGroup resolve nc ip st (f0 :: rest, piece) = .ok st' ∧
      st'.created = st.created ++ ds ∧
      ds.length = (f0 :: rest).length ∧
      List.Forall₂ (fun f d =>
        d.start = (if ip then nc.«end» else nc.start - 1) ∧
        d.«end» = f.«end» ∧
        d.coordinate = f0.coordinate ∧
        d.transcribed_pieces = swap_list_item f.transcribed_pieces npid piece.id ∧
        (trim_to nc ip f).start = f.start ∧
        (trim_to nc ip f).«end» = (if ip then nc.«end» else nc.start - 1) ∧
        (trim_to nc ip f).coordinate = nc ∧
        (ip = true →
          py_start (trim_to nc ip f) ip = py_start f ip ∧
          py_end (trim_to nc ip f) ip = py_start d ip ∧
          py_end d ip = py_end f ip) ∧
        (ip = false →
          py_start d ip = py_start f ip ∧
          py_end d ip = py_start (trim_to nc ip f) ip ∧
          py_end (trim_to nc ip f) ip = py_end f ip)) (f0 :: rest) ds ∧
      st'.features = (f0 :: rest).foldl
        (fun acc f => updateFeature acc (trim_to nc ip f)) st.features := by
  obtain ⟨hdf, hdc, hdp2, _, _, hdcr⟩ := downstream_piece_fields
    { st with seen_one_overlap := true, piece_at_border := some piece.id } piece
  have hst2f : (execute_so_far resolve
      (downstream_piece
        { st with seen_one_overlap := true, piece_at_border := some piece.id }
        piece).1).features = st.features := by
    show ((downstream_piece
        { st with seen_one_overlap := true, piece_at_border := some piece.id }
        piece).1).features.map _ = st.features
    rw [hdf, hdc, hdp2, hq1, hq2]
    have happ : ∀ x : Feature,
        apply_piece_swaps [] (apply_coord_swaps resolve [] x) = x := fun x => rfl
    simp only [happ, List.map_id']
  obtain ⟨st', ds, h1, h2, h3, h4⟩ := border_loop_ok nc f0.coordinate ip
    (downstream_piece
      { st with seen_one_overlap := true, piece_at_border := some piece.id }
      piece).2.id piece.id (f0 :: rest)
    (execute_so_far resolve
      (downstream_piece
        { st with seen_one_overlap := true, piece_at_border := some piece.id }
        piece).1)
    hmem
  refine ⟨st',
    (downstream_piece
      { st with seen_one_overlap := true, piece_at_border := some piece.id }
      piece).2.id, ds, ?_, ?_, ?_, ?_, ?_⟩
  · rw [processGroup_ovdown resolve nc ip st f0 rest piece hcls]
    exact h1
  · rw [h2]
    have hec : (execute_so_far resolve
        (downstream_piece
          { st with seen_one_overlap := true, piece_at_border := some piece.id }
          piece).1).created
        = (downstream_piece
          { st with seen_one_overlap := true, piece_at_border := some piece.id }
          piece).1.created := rfl
    rw [hec, hdcr]
  · exact (List.Forall₂.length_eq h3).symm
  · refine h3.imp ?_
    rintro f d ⟨k, rfl⟩
    refine ⟨rfl, rfl, rfl, rfl, rfl, ?_, rfl, ?_, ?_⟩
    · cases ip <;> rfl
    · rintro rfl
      exact ⟨rfl, rfl, rfl⟩
    · rintro rfl
      exact ⟨rfl, rfl, rfl⟩
  · rw [h4, hst2f]
    have hfn : (fun (acc : List Feature) (f : Feature) =>
        updateFeature acc (set_status_downstream_border nc f0.coordinate ip f
          (downstream_piece
            { st with seen_one_overlap := true, piece_at_border := some piece.id }
            piece).2.id piece.id 0).1)
        = fun (acc : List Feature) (f : Feature) =>
            updateFeature acc (trim_to nc ip f) := by
      funext acc f
      rfl
    rw [hfn]

/-- C4 (amended): for every feature and slice at least one of the six
classifications holds — the if/elif dispatch of `modify4new_slice` picks
the first that does, so for a feature group with a positive-length adjusted
interval the defensive `AssertionError` branch is unreachable — and the
classification is computed in strand-adjusted half-open coordinates where a
minus-strand feature's adjusted start/end are `feature.end + 1` and
`feature.start + 1`.  (The six predicates are not mutually exclusive: a
feature spanning the whole slice satisfies both `overlaps_upstream` and
`overlaps_downstream`, so "exactly one" fails; the dispatch order makes
the assigned classification unique.) -/
theorem c4_classifier_total (f : Feature) (nc : Coordinates) (ip : Bool)
    (hpos : py_start f ip < py_end f ip) :
    classify f nc ip ≠ .unreachable ∧
    (ip = false →
      (FeatureVsCoords.make f nc ip).feature_py_start = f.«end» + 1 ∧
        (FeatureVsCoords.make f nc ip).feature_py_end = f.start + 1) := by
  refine ⟨classify_ne_unreachable f nc ip, ?_⟩
  rintro rfl
  exact ⟨rfl, rfl⟩

/-- C4, counterexample to "exactly one classification": a plus-strand
feature spanning the whole slice satisfies `overlaps_upstream` and
`overlaps_downstream` simultaneously. -/
theorem c4_not_exactly_one :
    (FeatureVsCoords.make featSpan sliceB true).overlaps_upstream = true ∧
      (FeatureVsCoords.make featSpan sliceB true).overlaps_downstream = true := by
  exact ⟨by decide, by decide⟩

/-- C6 (amended): for a feature group classified `is_downstream` after the
border has been identified, a piece reassignment onto the memoized
downstream piece is enqueued for each feature of the group when — and only
when — the group's piece is the border piece itself; on any other piece the
group is left untouched, with nothing enqueued. -/
theorem c6_downstream_swaps (resolve : Nat → Coordinates) (nc : Coordinates)
    (ip : Bool) (st : TrimState) (f0 : Feature) (rest : List Feature)
    (piece : TranscribedPiece) (pb : Nat) (dp : TranscribedPiece)
    (hcls : classify f0 nc ip = .downstream)
    (hpb : st.piece_at_border = some pb)
    (hdp : st.downstream_piece = some dp) :
    (piece.id = pb →
      processGroup resolve nc ip st (f0 :: rest, piece)
        = .ok { st with
            piece_swaps := st.piece_swaps ++ (f0 :: rest).map fun f =>
              { piece_id_old := pb, piece_id_new := dp.id, feat_id := f.id } }) ∧
    (piece.id ≠ pb →
      processGroup resolve nc ip st (f0 :: rest, piece) = .ok st) := by
  constructor
  · intro heq
    exact processGroup_downstream_border resolve nc ip st f0 rest piece pb dp
      hcls hpb heq hdp
  · intro hne
    exact processGroup_downstream_other resolve nc ip st f0 rest piece pb
      hcls hpb hne

/-- C10: the downstream feature created by a border split carries
`start_is_biological_start = False`, no `given_name`, and the fresh id it
was created with, while the truncated template is marked
`end_is_biological_end = False`; the remaining attributes of the new
feature (`end`, `is_plus_strand`, `end_is_biological_end`) are copied from
the template. -/
theorem c10_border_markers (nc oc : Coordinates) (ip : Bool)
    (template : Feature) (npid opid fid : Nat) :
    (set_status_downstream_border nc oc ip template npid opid fid).2.id = fid ∧
    (set_status_downstream_border nc oc ip template npid opid fid).2.start_is_biological_start
      = false ∧
    (set_status_downstream_border nc oc ip template npid opid fid).2.given_name
      = none ∧
    (set_status_downstream_border nc oc ip template npid opid fid).1.end_is_biological_end
      = false ∧
    (set_status_downstream_border nc oc ip template npid opid fid).2.«end»
      = template.«end» ∧
    (set_status_downstream_border nc oc ip template npid opid fid).2.is_plus_strand
      = template.is_plus_strand ∧
    (set_status_downstream_border nc oc ip template npid opid fid).2.end_is_biological_end
      = template.end_is_biological_end := by
  exact ⟨rfl, rfl, rfl, rfl, rfl, rfl, rfl⟩

/-- C5: `mk_new_piece` increments the position of exactly the pieces lying
after the given piece, creates the new piece at `piece.position + 1`, and —
when the transcript's piece positions were a permutation of 0 through
N - 1 — leaves a duplicate-free, dense ordering of positions 0 through N. -/
theorem c5_mk_new_piece_positions (pieces : List TranscribedPiece) (piece : TranscribedPiece)
    (fresh_id : Nat) (N : Nat)
    (hmem : piece ∈ pieces)
    (hperm : (pieces.map TranscribedPiece.position).Perm
      ((List.range N).map (fun n : ℕ => (n : Int)))) :
    (mk_new_piece pieces piece fresh_id).1
        = (pieces.map fun old_piece =>
            if old_piece.position > piece.position then
              { old_piece with position := old_piece.position + 1 }
            else old_piece) ++ [{ id := fresh_id, position := piece.position + 1 }] ∧
    (mk_new_piece pieces piece fresh_id).2
        = { id := fresh_id, position := piece.position + 1 } ∧
    ((mk_new_piece pieces piece fresh_id).1.map TranscribedPiece.position).Nodup ∧
    ((mk_new_piece pieces piece fresh_id).1.map TranscribedPiece.position).Perm
      ((List.range (N + 1)).map (fun n : ℕ => (n : Int))) := by
  have hmapmap : ∀ (ps : List TranscribedPiece),
      (ps.map fun q =>
        if q.position > piece.position then { q with position := q.position + 1 }
        else q).map TranscribedPiece.position
      = (ps.map TranscribedPiece.position).map
          (fun x => if piece.position < x then x + 1 else x) := by
    intro ps
    induction ps with
    | nil => rfl
    | cons a t ih =>
      simp only [List.map_cons, ih, List.cons.injEq, and_true]
      by_cases h : piece.position < a.position <;> simp [h, gt_iff_lt]
  have hpos_out : (mk_new_piece pieces piece fresh_id).1.map TranscribedPiece.position
      = (pieces.map TranscribedPiece.position).map
          (fun x => if piece.position < x then x + 1 else x) ++ [piece.position + 1] := by
    simp only [mk_new_piece, List.map_append, hmapmap, List.map_cons, List.map_nil]
  have htarget_nodup : ∀ M : ℕ, ((List.range M).map (fun n : ℕ => (n : Int))).Nodup :=
    fun M => List.Nodup.map (fun a b h => by omega) (List.nodup_range M)
  have hmem_range : ∀ (M : ℕ) (x : Int),
      x ∈ (List.range M).map (fun n : ℕ => (n : Int)) ↔ 0 ≤ x ∧ x < (M : Int) := by
    intro M x
    constructor
    · intro hx
      obtain ⟨a, ha, hax⟩ := List.mem_map.1 hx
      have ha' : a < M := List.mem_range.1 ha
      have hax' : (a : Int) = x := hax
      omega
    · intro hx
      refine List.mem_map.2 ⟨x.toNat, List.mem_range.2 (by omega), ?_⟩
      show ((x.toNat : ℕ) : Int) = x
      omega
  have hl_nodup : (pieces.map TranscribedPiece.position).Nodup :=
    hperm.nodup_iff.mpr (htarget_nodup N)
  have hl_mem : ∀ x, x ∈ pieces.map TranscribedPiece.position ↔ 0 ≤ x ∧ x < (N : Int) :=
    fun x => hperm.mem_iff.trans (hmem_range N x)
  have hk : 0 ≤ piece.position ∧ piece.position < (N : Int) :=
    (hl_mem piece.position).1 (List.mem_map_of_mem _ hmem)
  have hinj : Function.Injective (fun x : Int => if piece.position < x then x + 1 else x) :=
    fun a b h => by
      have h' : (if piece.position < a then a + 1 else a)
          = (if piece.position < b then b + 1 else b) := h
      split_ifs at h' <;> omega
  have hout_nodup :
      ((mk_new_piece pieces piece fresh_id).1.map TranscribedPiece.position).Nodup := by
    rw [hpos_out]
    refine List.Nodup.append (hl_nodup.map hinj) (List.nodup_singleton _) ?_
    intro x hx hx'
    have hx1 : x = piece.position + 1 := List.mem_singleton.1 hx'
    obtain ⟨y, hy, hys⟩ := List.mem_map.1 hx
    have hys' : (if piece.position < y then y + 1 else y) = x := hys
    have := (hl_mem y).1 hy
    split_ifs at hys' <;> omega
  refine ⟨rfl, rfl, hout_nodup, ?_⟩
  refine (List.perm_ext_iff_of_nodup hout_nodup (htarget_nodup (N + 1))).2 ?_
  intro x
  rw [hmem_range, hpos_out]
  constructor
  · intro hx
    rcases List.mem_append.1 hx with hx | hx
    · obtain ⟨y, hy, hys⟩ := List.mem_map.1 hx
      have hys' : (if piece.position < y then y + 1 else y) = x := hys
      have := (hl_mem y).1 hy
      split_ifs at hys' <;> omega
    · have : x = piece.position + 1 := List.mem_singleton.1 hx
      omega
  · intro hx
    by_cases h1 : x = piece.position + 1
    · exact List.mem_append_right _ (List.mem_singleton.2 h1)
    · refine List.mem_append_left _ ?_
      by_cases h2 : x ≤ piece.position
      · refine List.mem_map.2 ⟨x, (hl_mem x).2 (by omega), ?_⟩
        show (if piece.position < x then x + 1 else x) = x
        rw [if_neg (by omega)]
      · refine List.mem_map.2 ⟨x - 1, (hl_mem (x - 1)).2 (by omega), ?_⟩
        show (if piece.position < x - 1 then x - 1 + 1 else x - 1) = x
        rw [if_pos (by omega)]
        omega

/-- C2, counterexample to the claim as stated: this transcript's only
group overlaps the upstream slice boundary — so a group *was* classified
as overlapping a slice boundary — yet `modify4new_slice` still raises
`NoFeaturesInSliceError`, because only `contained` and
`overlaps_downstream` set `seen_one_overlap`. -/
theorem c2_upstream_overlap_still_raises :
    (FeatureVsCoords.make featOvUp sliceB true).overlaps_upstream = true ∧
    classify featOvUp sliceB true = .overlaps_upstream ∧
    modify4new_slice resolveW sliceB true [([featOvUp], pieceW)]
      (initState [featOvUp] [pieceW] 60) = .error .noFeaturesInSlice := by
  exact ⟨by decide, by decide, by rfl⟩

/-- C6, counterexample to the claim as stated: the border has been
identified (`piece_at_border = some 7`, memoized downstream piece
present), the group classifies `is_downstream`, but it sits on piece 8,
not on the border piece — and no piece reassignment is enqueued: the state
is returned unchanged, with `piece_swaps` still empty. -/
theorem c6_nonborder_piece_not_enqueued :
    classify featC slice400 true = .downstream ∧
    processGroup resolveW slice400 true
      { initState [featC] [pieceW] 400 with
          piece_at_border := some 7
          downstream_piece := some { id := 9, position := 1 } }
      ([featC], pieceX)
      = .ok { initState [featC] [pieceW] 400 with
          piece_at_border := some 7
          downstream_piece := some { id := 9, position := 1 } } ∧
    ({ initState [featC] [pieceW] 400 with
        piece_at_border := some 7
        downstream_piece := some { id := 9, position := 1 } } : TrimState).piece_swaps
      = [] := by
  exact ⟨by decide, by rfl, by rfl⟩

/-- C7, counterexample to the claim as stated: a call whose only group is
`contained` returns with the enqueued coordinate swap still pending in the
batch queue (`coord_swaps` nonempty) and nothing applied — the source's
end-of-call flush is commented out, so the claim's "no enqueued record
remains unapplied once the call returns" fails. -/
theorem c7_pending_at_return :
    modify4new_slice resolveW slice400 true [([featA], pieceW)]
      (initState [featA] [pieceW] 500)
      = .ok { initState [featA] [pieceW] 500 with
          seen_one_overlap := true
          coord_swaps := [{ feat_id := 10, coordinate_id_new := 1 }] } ∧
    ({ initState [featA] [pieceW] 500 with
        seen_one_overlap := true
        coord_swaps := [{ feat_id := 10, coordinate_id_new := 1 }] } : TrimState).coord_swaps
      ≠ [] ∧
    ({ initState [featA] [pieceW] 500 with
        seen_one_overlap := true
        coord_swaps := [{ feat_id := 10, coordinate_id_new := 1 }] } : TrimState).applied_coord_swaps
      = [] := by
  exact ⟨by rfl, by decide, by rfl⟩

/-- C8: the code accepts a zero-length adjusted interval silently, against
the specified behaviour — the feature with `start = end = 15` classifies
as `contained` against the slice and `modify4new_slice` happily enqueues a
coordinate swap for it, raising nothing. -/
theorem c8_zero_length_accepted :
    py_start featZero true = py_end featZero true ∧
    classify featZero sliceB true = .contained ∧
    modify4new_slice resolveW sliceB true [([featZero], pieceW)]
      (initState [featZero] [pieceW] 50)
      = .ok { initState [featZero] [pieceW] 50 with
          seen_one_overlap := true
          coord_swaps := [{ feat_id := 30, coordinate_id_new := 2 }] } := by
  exact ⟨by decide, by decide, by rfl⟩

theorem c2_witness :
    (initState [featA] [pieceW] 70).seen_one_overlap = false ∧
    (∀ g ∈ [([featA], pieceW)], g.1 ≠ ([] : List Feature)) ∧
    (modify4new_slice resolveW slice400 true [([featA], pieceW)]
        (initState [featA] [pieceW] 70) = .error .noFeaturesInSlice ↔
      ∀ g ∈ [([featA], pieceW)], ∀ f0 r, g.1 = f0 :: r →
        classify f0 slice400 true ≠ .contained ∧
          classify f0 slice400 true ≠ .overlaps_downstream) :=
  ⟨rfl, by decide,
    c2_noFeatures_iff resolveW slice400 true [([featA], pieceW)]
      (initState [featA] [pieceW] 70) rfl (by decide)⟩

theorem c4_witness :
    py_start featA true < py_end featA true ∧
    (classify featA slice400 true ≠ .unreachable ∧
      (true = false →
        (FeatureVsCoords.make featA slice400 true).feature_py_start
          = featA.«end» + 1 ∧
          (FeatureVsCoords.make featA slice400 true).feature_py_end
            = featA.start + 1)) :=
  ⟨by decide, c4_classifier_total featA slice400 true (by decide)⟩

theorem c6_witness :
    classify featC slice400 true = .downstream ∧
    ((pieceW.id = 7 →
      processGroup resolveW slice400 true
        { initState [featC] [pieceW] 410 with
            piece_at_border := some 7
            downstream_piece := some { id := 9, position := 1 } }
        ([featC], pieceW)
        = .ok { { initState [featC] [pieceW] 410 with
              piece_at_border := some 7
              downstream_piece := some { id := 9, position := 1 } } with
            piece_swaps := ({ initState [featC] [pieceW] 410 with
                piece_at_border := some 7
                downstream_piece := some { id := 9, position := 1 } } : TrimState).piece_swaps
              ++ [featC].map fun f =>
                { piece_id_old := 7, piece_id_new := 9, feat_id := f.id } }) ∧
    (pieceW.id ≠ 7 →
      processGroup resolveW slice400 true
        { initState [featC] [pieceW] 410 with
            piece_at_border := some 7
            downstream_piece := some { id := 9, position := 1 } }
        ([featC], pieceW)
        = .ok { initState [featC] [pieceW] 410 with
            piece_at_border := some 7
            downstream_piece := some { id := 9, position := 1 } })) :=
  ⟨by decide,
    c6_downstream_swaps resolveW slice400 true
      { initState [featC] [pieceW] 410 with
          piece_at_border := some 7
          downstream_piece := some { id := 9, position := 1 } }
      featC [] pieceW 7 { id := 9, position := 1 }
      (by decide) rfl rfl⟩

theorem c7_witness :
    (initState [featA, featC] [pieceW] 80).piece_at_border = none ∧
    (∀ g ∈ [([featA], pieceW), ([featC], pieceW)], g.1 ≠ ([] : List Feature)) ∧
    (∀ g ∈ [([featA], pieceW), ([featC], pieceW)], ∀ f0 r, g.1 = f0 :: r →
      classify f0 slice400 true ≠ .overlaps_downstream) ∧
    (∃ g ∈ [([featA], pieceW), ([featC], pieceW)],
      group_sets_seen slice400 true g = true) ∧
    (∃ st', modify4new_slice resolveW slice400 true
        [([featA], pieceW), ([featC], pieceW)]
        (initState [featA, featC] [pieceW] 80) = .ok st' ∧
      st'.applied_coord_swaps
        = (initState [featA, featC] [pieceW] 80).applied_coord_swaps ∧
      st'.applied_piece_swaps
        = (initState [featA, featC] [pieceW] 80).applied_piece_swaps ∧
      st'.coord_swaps = (initState [featA, featC] [pieceW] 80).coord_swaps
        ++ ([([featA], pieceW), ([featC], pieceW)].map
            (group_coord_swaps slice400 true)).flatten ∧
      st'.piece_swaps = (initState [featA, featC] [pieceW] 80).piece_swaps) :=
  ⟨rfl, by decide, (by
      intro g hg f0 r hgf
      rcases List.mem_cons.1 hg with rfl | hg2
      · injection hgf with h1 h2
        subst h1
        decide
      · rcases List.mem_cons.1 hg2 with rfl | hg3
        · injection hgf with h1 h2
          subst h1
          decide
        · cases hg3), by decide,
    c7_queue_pending_without_border resolveW slice400 true
      [([featA], pieceW), ([featC], pieceW)]
      (initState [featA, featC] [pieceW] 80) rfl (by decide) (by
      intro g hg f0 r hgf
      rcases List.mem_cons.1 hg with rfl | hg2
      · injection hgf with h1 h2
        subst h1
        decide
      · rcases List.mem_cons.1 hg2 with rfl | hg3
        · injection hgf with h1 h2
          subst h1
          decide
        · cases hg3) (by decide)⟩

theorem c5_witness :
    ({ id := 1, position := 1 } : TranscribedPiece) ∈
      [({ id := 0, position := 0 } : TranscribedPiece), { id := 1, position := 1 },
        { id := 2, position := 2 }] ∧
    ([({ id := 0, position := 0 } : TranscribedPiece), { id := 1, position := 1 },
        { id := 2, position := 2 }].map TranscribedPiece.position).Perm
      ((List.range 3).map (fun n : ℕ => (n : Int))) ∧
    ((mk_new_piece
        [({ id := 0, position := 0 } : TranscribedPiece), { id := 1, position := 1 },
          { id := 2, position := 2 }] { id := 1, position := 1 } 9).1
      = ([({ id := 0, position := 0 } : TranscribedPiece), { id := 1, position := 1 },
          { id := 2, position := 2 }].map fun old_piece =>
            if old_piece.position > ({ id := 1, position := 1 } : TranscribedPiece).position then
              { old_piece with position := old_piece.position + 1 }
            else old_piece)
        ++ [{ id := 9,
              position := ({ id := 1, position := 1 } : TranscribedPiece).position + 1 }] ∧
    (mk_new_piece
        [({ id := 0, position := 0 } : TranscribedPiece), { id := 1, position := 1 },
          { id := 2, position := 2 }] { id := 1, position := 1 } 9).2
      = { id := 9,
          position := ({ id := 1, position := 1 } : TranscribedPiece).position + 1 } ∧
    ((mk_new_piece
        [({ id := 0, position := 0 } : TranscribedPiece), { id := 1, position := 1 },
          { id := 2, position := 2 }] { id := 1, position := 1 } 9).1.map
        TranscribedPiece.position).Nodup ∧
    ((mk_new_piece
        [({ id := 0, position := 0 } : TranscribedPiece), { id := 1, position := 1 },
          { id := 2, position := 2 }] { id := 1, position := 1 } 9).1.map
        TranscribedPiece.position).Perm
      ((List.range (3 + 1)).map (fun n : ℕ => (n : Int)))) :=
  ⟨by decide, by decide,
    c5_mk_new_piece_positions
      [({ id := 0, position := 0 } : TranscribedPiece), { id := 1, position := 1 },
        { id := 2, position := 2 }] { id := 1, position := 1 } 9 3
      (by decide) (by decide)⟩

theorem c9_witness :
    (initState [featA, featD] [pieceW] 600).piece_at_border = none ∧
    (initState [featA, featD] [pieceW] 600).seen_one_overlap = false ∧
    ([([featA], pieceW), ([featD], pieceW)] :
      List (List Feature × TranscribedPiece)) ≠ [] ∧
    (∀ g ∈ [([featA], pieceW), ([featD], pieceW)], g.1 ≠ ([] : List Feature)) ∧
    (∀ g ∈ [([featA], pieceW), ([featD], pieceW)], ∀ f ∈ g.1,
      f.coordinate.seqid = slice400.seqid ∧ f.is_plus_strand = true ∧
      slice400.start ≤ py_start f true ∧ py_end f true ≤ slice400.«end» ∧
      py_start f true < py_end f true) ∧
    (∃ st', modify4new_slice resolveW slice400 true
        [([featA], pieceW), ([featD], pieceW)]
        (initState [featA, featD] [pieceW] 600) = .ok st' ∧
      (∀ g ∈ [([featA], pieceW), ([featD], pieceW)], ∀ f0 r, g.1 = f0 :: r →
        classify f0 slice400 true = .contained) ∧
      st'.created = (initState [featA, featD] [pieceW] 600).created ∧
      st'.pieces = (initState [featA, featD] [pieceW] 600).pieces ∧
      st'.piece_swaps = (initState [featA, featD] [pieceW] 600).piece_swaps ∧
      st'.features = (initState [featA, featD] [pieceW] 600).features ∧
      (execute_so_far resolveW st').features.map (fun f => (f.start, f.«end»))
        = (initState [featA, featD] [pieceW] 600).features.map
            (fun f => (f.start, f.«end»))) :=
  ⟨rfl, rfl, by decide, by decide, by decide,
    c9_full_span_noop resolveW slice400 true
      [([featA], pieceW), ([featD], pieceW)]
      (initState [featA, featD] [pieceW] 600) rfl rfl (by decide) (by decide)
      (by decide)⟩

theorem c1_witness :
    classify featB slice400 true = .overlaps_downstream ∧
    (∀ f ∈ [featB], pieceW.id ∈ f.transcribed_pieces) ∧
    (∃ st' npid ds,
      processGroup resolveW slice400 true
        (initState [featA, featB, featC] [pieceW] 200) ([featB], pieceW)
        = .ok st' ∧
      st'.created = (initState [featA, featB, featC] [pieceW] 200).created ++ ds ∧
      ds.length = [featB].length ∧
      List.Forall₂ (fun f d =>
        d.start = (if true then slice400.«end» else slice400.start - 1) ∧
        d.«end» = f.«end» ∧
        d.coordinate = featB.coordinate ∧
        d.transcribed_pieces = swap_list_item f.transcribed_pieces npid pieceW.id ∧
        (trim_to slice400 true f).start = f.start ∧
        (trim_to slice400 true f).«end»
          = (if true then slice400.«end» else slice400.start - 1) ∧
        (trim_to slice400 true f).coordinate = slice400 ∧
        (true = true →
          py_start (trim_to slice400 true f) true = py_start f true ∧
          py_end (trim_to slice400 true f) true = py_start d true ∧
          py_end d true = py_end f true) ∧
        (true = false →
          py_start d true = py_start f true ∧
          py_end d true = py_start (trim_to slice400 true f) true ∧
          py_end (trim_to slice400 true f) true = py_end f true)) [featB] ds ∧
      st'.features = [featB].foldl
        (fun acc f => updateFeature acc (trim_to slice400 true f))
        (initState [featA, featB, featC] [pieceW] 200).features) :=
  ⟨by decide, by decide,
    c1_downstream_border_split resolveW slice400 true
      (initState [featA, featB, featC] [pieceW] 200) featB [] pieceW
      (by decide) (by decide) rfl rfl⟩

theorem c3_witness :
    classify featA slice400 true = .contained ∧
    modify4new_slice resolveW slice400 true [([featA], pieceW)]
      (initState [featA] [pieceW] 300)
      = .ok { initState [featA] [pieceW] 300 with
          seen_one_overlap := true
          coord_swaps := [{ feat_id := 10, coordinate_id_new := 1 }] } ∧
    findFeature (execute_so_far resolveW
      { initState [featA] [pieceW] 300 with
          seen_one_overlap := true
          coord_swaps := [{ feat_id := 10, coordinate_id_new := 1 }] }).features
      featA.id = some { featA with coordinate := slice400 } :=
  ⟨by decide, by rfl,
    c3_contained_feature_coordinates resolveW slice400 true [([featA], pieceW)]
      (initState [featA] [pieceW] 300)
      { initState [featA] [pieceW] 300 with
          seen_one_overlap := true
          coord_swaps := [{ feat_id := 10, coordinate_id_new := 1 }] }
      featA ([featA], pieceW) rfl (by decide) (by decide) (by decide) (by decide)
      (by rfl) rfl rfl (by rfl)⟩
